import Mathlib

/-!
Verification of the Scene Synchronization Subsystem of the Living Notebook
application (sketch-to-simulation with voice commands).

The embedding models the TypeScript sources:
- `src/components/ErrorBoundary.tsx` (service module: `cleanJson`,
  `sanitizeNumber`, `interpretVoiceCommand`'s sanitize/remap section),
- `src/App.tsx` (`toggleRecording`'s scene-merge callbacks),
- `src/components/SimulationCanvas.tsx` (world construction, `handleWheel`
  zoom, gravity normalization, collision-flash state).

JavaScript numbers are modelled as `JsNum`: a rational payload for the finite
values plus the three non-finite values `NaN`, `Infinity`, `-Infinity`.
Optional / possibly-absent fields are `Option`s (an absent key in a JS object
spread or a `!== undefined` test corresponds to `none`).
-/

/-- A JavaScript number: either a finite value (modelled as a rational) or one
of the non-finite values NaN, Infinity, -Infinity. -/
inductive JsNum where
  | num (q : ℚ)
  | nan
  | inf
  | ninf
deriving DecidableEq, Repr

/-- Finiteness test, i.e. `Number.isFinite` / `isFinite` on a number (and
`isNaN(x) || !isFinite(x)` is exactly its negation). -/
def JsNum.isFiniteNum : JsNum → Bool
  | .num _ => true
  | _ => false

/-- JavaScript multiplication on `JsNum` (IEEE sign rules for infinities;
`Infinity * 0` is NaN; anything with NaN is NaN). -/
def jsMul : JsNum → JsNum → JsNum
  | .num a, .num b => .num (a * b)
  | .nan, _ => .nan
  | .num _, .nan => .nan
  | .inf, .nan => .nan
  | .ninf, .nan => .nan
  | .inf, .inf => .inf
  | .inf, .ninf => .ninf
  | .ninf, .inf => .ninf
  | .ninf, .ninf => .inf
  | .inf, .num b => if 0 < b then .inf else if b < 0 then .ninf else .nan
  | .num a, .inf => if 0 < a then .inf else if a < 0 then .ninf else .nan
  | .ninf, .num b => if 0 < b then .ninf else if b < 0 then .inf else .nan
  | .num a, .ninf => if 0 < a then .ninf else if a < 0 then .inf else .nan

/-- Embedding of `sanitizeNumber` (ErrorBoundary.tsx lines 98-102).  The
`val` argument is the result of `parseFloat(value)`: an unparsable input
parses to NaN, so it is covered by the `JsNum.nan` case.  The fallback is
`number | undefined` in the source, hence `Option JsNum` here; when the value
is unparsable or non-finite the function returns `fallback` if provided else
`min`, otherwise it clamps via `Math.min(Math.max(n, min), max)`. -/
def sanitizeNumber : JsNum → ℚ → ℚ → Option JsNum → JsNum
  | .num q, mn, mx, _ => .num (min (max q mn) mx)
  | _, mn, _, fb => fb.getD (.num mn)

/-- Claim C5: `sanitizeNumber` is total — for every input value (including
non-finite and unparsable ones) it returns a real number: the fallback (or
`min` when the fallback is absent) when the value is unparsable or
non-finite, and otherwise the parsed value clamped into `[min, max]`; and
for `min ≤ max` and any real fallback in `[min, max]` it is idempotent with
result always in `[min, max]`. -/
theorem sanitizeNumber_total_idempotent (v : JsNum) (mn mx : ℚ) (fb : Option JsNum)
    (hle : mn ≤ mx)
    (hfb : ∀ f ∈ fb, ∃ q : ℚ, f = .num q ∧ mn ≤ q ∧ q ≤ mx) :
    (∃ q : ℚ, sanitizeNumber v mn mx fb = .num q ∧ mn ≤ q ∧ q ≤ mx) ∧
    (v.isFiniteNum = false → sanitizeNumber v mn mx fb = fb.getD (.num mn)) ∧
    (∀ q : ℚ, v = .num q → sanitizeNumber v mn mx fb = .num (min (max q mn) mx)) ∧
    sanitizeNumber (sanitizeNumber v mn mx fb) mn mx fb = sanitizeNumber v mn mx fb := by
  have hclamp : ∀ q : ℚ, mn ≤ min (max q mn) mx ∧ min (max q mn) mx ≤ mx := by
    intro q
    constructor
    · exact le_min (le_trans (le_max_right q mn) (le_refl _)) hle |>.trans_eq rfl
    · exact min_le_right _ _
  have hidem : ∀ q : ℚ, mn ≤ q → q ≤ mx → min (max q mn) mx = q := by
    intro q h1 h2
    rw [max_eq_left h1, min_eq_left h2]
  cases v with
  | num q =>
    refine ⟨⟨min (max q mn) mx, rfl, (hclamp q).1, (hclamp q).2⟩, ?_, ?_, ?_⟩
    · intro h; simp [JsNum.isFiniteNum] at h
    · intro q' hq'
      cases hq'; rfl
    · show sanitizeNumber (.num (min (max q mn) mx)) mn mx fb = _
      simp only [sanitizeNumber]
      rw [hidem _ (hclamp q).1 (hclamp q).2]
  | nan =>
    cases fb with
    | none =>
      refine ⟨⟨mn, rfl, le_refl mn, hle⟩, fun _ => rfl, ?_, ?_⟩
      · intro q hq; cases hq
      · show sanitizeNumber (.num mn) mn mx none = _
        simp only [sanitizeNumber]
        rw [hidem mn (le_refl mn) hle]
        rfl
    | some f =>
      obtain ⟨q, hfq, h1, h2⟩ := hfb f rfl
      subst hfq
      refine ⟨⟨q, rfl, h1, h2⟩, fun _ => rfl, ?_, ?_⟩
      · intro q' hq'; cases hq'
      · show sanitizeNumber (.num q) mn mx (some (.num q)) = _
        simp only [sanitizeNumber]
        rw [hidem q h1 h2]
        rfl
  | inf =>
    cases fb with
    | none =>
      refine ⟨⟨mn, rfl, le_refl mn, hle⟩, fun _ => rfl, ?_, ?_⟩
      · intro q hq; cases hq
      · show sanitizeNumber (.num mn) mn mx none = _
        simp only [sanitizeNumber]
        rw [hidem mn (le_refl mn) hle]
        rfl
    | some f =>
      obtain ⟨q, hfq, h1, h2⟩ := hfb f rfl
      subst hfq
      refine ⟨⟨q, rfl, h1, h2⟩, fun _ => rfl, ?_, ?_⟩
      · intro q' hq'; cases hq'
      · show sanitizeNumber (.num q) mn mx (some (.num q)) = _
        simp only [sanitizeNumber]
        rw [hidem q h1 h2]
        rfl
  | ninf =>
    cases fb with
    | none =>
      refine ⟨⟨mn, rfl, le_refl mn, hle⟩, fun _ => rfl, ?_, ?_⟩
      · intro q hq; cases hq
      · show sanitizeNumber (.num mn) mn mx none = _
        simp only [sanitizeNumber]
        rw [hidem mn (le_refl mn) hle]
        rfl
    | some f =>
      obtain ⟨q, hfq, h1, h2⟩ := hfb f rfl
      subst hfq
      refine ⟨⟨q, rfl, h1, h2⟩, fun _ => rfl, ?_, ?_⟩
      · intro q' hq'; cases hq'
      · show sanitizeNumber (.num q) mn mx (some (.num q)) = _
        simp only [sanitizeNumber]
        rw [hidem q h1 h2]
        rfl

/-- Witness for C5 at a concrete input: value NaN, range [0, 1], fallback
one half. -/
theorem sanitizeNumber_total_idempotent_witness :
    (∃ q : ℚ, sanitizeNumber .nan 0 1 (some (.num (1/2))) = .num q ∧ 0 ≤ q ∧ q ≤ 1) ∧
    (JsNum.isFiniteNum .nan = false →
      sanitizeNumber .nan 0 1 (some (.num (1/2))) = (some (JsNum.num (1/2))).getD (.num 0)) ∧
    (∀ q : ℚ, JsNum.nan = .num q →
      sanitizeNumber .nan 0 1 (some (.num (1/2))) = .num (min (max q 0) 1)) ∧
    sanitizeNumber (sanitizeNumber .nan 0 1 (some (.num (1/2)))) 0 1 (some (.num (1/2)))
      = sanitizeNumber .nan 0 1 (some (.num (1/2))) :=
  sanitizeNumber_total_idempotent .nan 0 1 (some (.num (1/2))) (by norm_num)
    (by intro f hf; cases hf; exact ⟨1/2, rfl, by norm_num, by norm_num⟩)

/-!
Data model (`src/types.ts`).  `BodyDef` and `ConstraintDef` keep the fields of
the TypeScript interfaces.  In the voice-command response schema only `id` is
required on an updated-body fragment, so all fields except `id` are `Option`s;
a full body simply has them present.  The `type` field is a plain string (the
voice schema does not restrict it to the circle/rectangle enum).
-/

/-- Body descriptor (types.ts `BodyDef`); all fields but `id` may be absent
on update fragments coming from the model. -/
structure BodyDef where
  id : String
  type : Option String := none
  x : Option JsNum := none
  y : Option JsNum := none
  width : Option JsNum := none
  height : Option JsNum := none
  radius : Option JsNum := none
  angle : Option JsNum := none
  isStatic : Option Bool := none
  color : Option String := none
  friction : Option JsNum := none
deriving DecidableEq, Repr

/-- Constraint descriptor (types.ts `ConstraintDef`). -/
structure ConstraintDef where
  bodyAId : String
  bodyBId : Option String := none
  pointB : Option (JsNum × JsNum) := none
  stiffness : Option JsNum := none
  length : Option JsNum := none
deriving DecidableEq, Repr

/-- Scene configuration (types.ts `SceneConfig`). -/
structure SceneConfig where
  bodies : List BodyDef
  constraints : List ConstraintDef
deriving DecidableEq, Repr

/-- Voice-command response (types.ts `VoiceCommandResponse`).  The
`physicsUpdates` member only feeds `setPhysicsState` and is not consumed by
the scene merge, so it is not modelled here beyond the gravity normalizer
below. -/
structure VoiceCommandResponse where
  summary : Option String := none
  newBodies : Option (List BodyDef) := none
  updatedBodies : Option (List BodyDef) := none
  newConstraints : Option (List ConstraintDef) := none
  removeBodyIds : Option (List String) := none
deriving DecidableEq, Repr

/-!
Gravity normalizer (SimulationCanvas.tsx lines 308-325, the physics update
effect).
-/

/-- The constant `GRAVITY_SCALE_FACTOR = 1 / 9.81` of SimulationCanvas.tsx. -/
def GRAVITY_SCALE_FACTOR : ℚ := 1 / (981/100)

/-- Embedding of the gravity update (SimulationCanvas.tsx lines 314-319):
each axis is multiplied by `GRAVITY_SCALE_FACTOR`; a finite result is clamped
into [-10, 10] via `Math.min(Math.max(·, -10), 10)`, a non-finite result
falls back to 0 on x and 1 on y. -/
def normalizeGravity (gx gy : JsNum) : ℚ × ℚ :=
  let normalizedX := jsMul gx (.num GRAVITY_SCALE_FACTOR)
  let normalizedY := jsMul gy (.num GRAVITY_SCALE_FACTOR)
  (match normalizedX with
    | .num q => min (max q (-10)) 10
    | _ => 0,
   match normalizedY with
    | .num q => min (max q (-10)) 10
    | _ => 1)

/-- Claim C4: gravity normalization multiplies each axis by 1/9.81 and clamps
each axis to [-10, 10]; input (0, 9.81) maps to (0, 1); input (0, 24.79) maps
to vertical component 2479/981 (approximately 2.527, and at most 10); and an
axis whose scaled value is non-finite falls back to 0 horizontally and 1
vertically — in particular (NaN, Infinity) maps to (0, 1). -/
theorem normalizeGravity_spec :
    (∀ x y : ℚ, normalizeGravity (.num x) (.num y)
        = (min (max (x * GRAVITY_SCALE_FACTOR) (-10)) 10,
           min (max (y * GRAVITY_SCALE_FACTOR) (-10)) 10)) ∧
    normalizeGravity (.num 0) (.num (981/100)) = (0, 1) ∧
    (normalizeGravity (.num 0) (.num (2479/100))).2 = 2479/981 ∧
    |(2479/981 : ℚ) - 2527/1000| < 1/1000 ∧
    (2479/981 : ℚ) ≤ 10 ∧
    normalizeGravity .nan .inf = (0, 1) ∧
    (∀ g : JsNum, (normalizeGravity .nan g).1 = 0 ∧ (normalizeGravity .inf g).1 = 0
       ∧ (normalizeGravity .ninf g).1 = 0) ∧
    (∀ g : JsNum, (normalizeGravity g .nan).2 = 1 ∧ (normalizeGravity g .inf).2 = 1
       ∧ (normalizeGravity g .ninf).2 = 1) := by
  refine ⟨fun x y => rfl, ?_, ?_, by rw [abs_lt]; constructor <;> norm_num, by norm_num, ?_, ?_, ?_⟩
  · simp only [normalizeGravity, jsMul, GRAVITY_SCALE_FACTOR]
    norm_num
  · simp only [normalizeGravity, jsMul, GRAVITY_SCALE_FACTOR]
    norm_num
  · simp only [normalizeGravity, jsMul, GRAVITY_SCALE_FACTOR]
    norm_num
  · intro g
    refine ⟨rfl, ?_, ?_⟩ <;> simp only [normalizeGravity, jsMul, GRAVITY_SCALE_FACTOR] <;> norm_num
  · intro g
    cases g <;> refine ⟨rfl, ?_, ?_⟩ <;>
      simp only [normalizeGravity, jsMul, GRAVITY_SCALE_FACTOR] <;> norm_num

/-!
Contact effect state (SimulationCanvas.tsx): the `flash` slot written by the
`collisionStart` handler (lines 200-208) and aged/drawn by the `afterRender`
handler's spark block (lines 236-246).  The slot is `Option FlashState`
(`none` = no flash stored yet, i.e. Idle).
-/

/-- The `flash` record `{x, y, frame}` hung off the renderer. -/
structure FlashState where
  x : JsNum
  y : JsNum
  frame : Nat
deriving DecidableEq, Repr

/-- Embedding of the `collisionStart` handler (SimulationCanvas.tsx lines
200-208): when effects are disabled the state is untouched; otherwise each
pair's first support point (absent when `supports` is empty) overwrites the
flash slot with frame 0.  No finiteness check happens here. -/
def collisionStart (enableCollisionEffects : Bool) (st : Option FlashState)
    (supportPoints : List (Option (JsNum × JsNum))) : Option FlashState :=
  if !enableCollisionEffects then st
  else supportPoints.foldl (fun acc p =>
    match p with
    | some (px, py) => some ⟨px, py, 0⟩
    | none => acc) st

/-- Embedding of the spark block of the `afterRender` handler
(SimulationCanvas.tsx lines 236-246): the flash is drawn and aged only when
`frame < 10` and both coordinates are finite; otherwise the slot is left
exactly as it is and nothing is drawn.  The boolean records whether a spark
was drawn this frame. -/
def afterRenderFlash (st : Option FlashState) : Option FlashState × Bool :=
  match st with
  | none => (none, false)
  | some f =>
    if f.frame < 10 ∧ f.x.isFiniteNum = true ∧ f.y.isFiniteNum = true then
      (some ⟨f.x, f.y, f.frame + 1⟩, true)
    else (some f, false)

/-- Counterexample to claim C9: a contact event whose point has non-finite x
does NOT leave the contact-effect state unchanged — the active flash at the
finite point (5, 5) with age 3 is overwritten by the non-finite point at
age 0, which becomes the stored effect point. -/
theorem collisionStart_nonfinite_counterexample :
    collisionStart true (some ⟨.num 5, .num 5, 3⟩) [some (.nan, .num 0)]
      = some ⟨.nan, .num 0, 0⟩ ∧
    collisionStart true (some ⟨.num 5, .num 5, 3⟩) [some (.nan, .num 0)]
      ≠ some ⟨.num 5, .num 5, 3⟩ := by
  exact ⟨rfl, by decide⟩

/-- Claim C9 (amended): a contact event with a non-finite point is stored in
the flash slot (overwriting any previous effect, at age 0) — the rejection of
non-finite points happens only in the render step, which never draws nor ages
such a flash, leaving it inert. -/
theorem collisionStart_nonfinite_inert (st : Option FlashState) (x y : JsNum)
    (h : x.isFiniteNum = false ∨ y.isFiniteNum = false) :
    collisionStart true st [some (x, y)] = some ⟨x, y, 0⟩ ∧
    afterRenderFlash (some ⟨x, y, 0⟩) = (some ⟨x, y, 0⟩, false) := by
  constructor
  · rfl
  · simp only [afterRenderFlash]
    rw [if_neg]
    rintro ⟨-, hx, hy⟩
    rcases h with h | h
    · rw [hx] at h; cases h
    · rw [hy] at h; cases h

/-- Witness for the amended C9 at a concrete input: prior state Idle, contact
point (Infinity, 2). -/
theorem collisionStart_nonfinite_inert_witness :
    collisionStart true none [some (.inf, .num 2)] = some ⟨.inf, .num 2, 0⟩ ∧
    afterRenderFlash (some ⟨.inf, .num 2, 0⟩) = (some ⟨.inf, .num 2, 0⟩, false) :=
  collisionStart_nonfinite_inert none .inf (.num 2) (Or.inl rfl)

/-!
Viewport controller (SimulationCanvas.tsx).  `Render.lookAt` of the external
physics library is modelled, per its use in the source and spec section 4.7,
as setting the render bounds to the given rectangle; `handleWheel` (lines
181-196) is embedded literally.
-/

/-- World-space view rectangle (`render.bounds`). -/
structure ViewBounds where
  minX : ℚ
  minY : ℚ
  maxX : ℚ
  maxY : ℚ
deriving DecidableEq, Repr

/-- Width of the view rectangle. -/
def widthOf (b : ViewBounds) : ℚ := b.maxX - b.minX

/-- Embedding of `handleWheel` (SimulationCanvas.tsx lines 181-196): the zoom
factor is 1.1 for `deltaY > 0` (zoom out) and 0.9 otherwise (zoom in); the
operation is skipped when the CURRENT width exceeds 4000 and zooming out, or
is below 100 and zooming in; otherwise the box is recentred with width
`dx * zoomFactor` and height derived from the canvas aspect ratio. -/
def handleWheel (b : ViewBounds) (deltaY canvasWidth canvasHeight : ℚ) : ViewBounds :=
  let zoomFactor : ℚ := if 0 < deltaY then 11/10 else 9/10
  let dx := b.maxX - b.minX
  if 4000 < dx ∧ 1 < zoomFactor then b
  else if dx < 100 ∧ zoomFactor < 1 then b
  else
    let centerX := (b.minX + b.maxX) / 2
    let centerY := (b.minY + b.maxY) / 2
    let newDx := dx * zoomFactor
    let aspectRatio := canvasHeight / canvasWidth
    let newDy := newDx * aspectRatio
    { minX := centerX - newDx / 2, minY := centerY - newDy / 2,
      maxX := centerX + newDx / 2, maxY := centerY + newDy / 2 }

/-- The initial view set by `Render.lookAt` (SimulationCanvas.tsx lines
55-60): the 800x600 world with 100 units of padding on each side. -/
def initialView : ViewBounds := ⟨-100, -100, 800 + 100, 600 + 100⟩

/-- A finite sequence of wheel events folded through `handleWheel`; each
event carries its deltaY and the canvas dimensions. -/
def wheelSeq (b : ViewBounds) (ops : List (ℚ × ℚ × ℚ)) : ViewBounds :=
  ops.foldl (fun acc op => handleWheel acc op.1 op.2.1 op.2.2) b

/-- Zoom-out at a width strictly above 4000 is a no-op. -/
theorem handleWheel_skip_out (b : ViewBounds) (d cw ch : ℚ)
    (hw : 4000 < widthOf b) (hd : 0 < d) :
    handleWheel b d cw ch = b := by
  simp only [handleWheel]
  rw [if_pos hd, if_pos]
  exact ⟨hw, by norm_num⟩

/-- Zoom-in at a width strictly below 100 is a no-op. -/
theorem handleWheel_skip_in (b : ViewBounds) (d cw ch : ℚ)
    (hw : widthOf b < 100) (hd : ¬ 0 < d) :
    handleWheel b d cw ch = b := by
  simp only [handleWheel]
  rw [if_neg hd, if_neg, if_pos]
  · exact ⟨hw, by norm_num⟩
  · rintro ⟨-, h⟩
    norm_num at h

/-- An applied (non-skipped) wheel operation multiplies the width by the zoom
factor. -/
theorem handleWheel_applied_width (b : ViewBounds) (d cw ch : ℚ)
    (hno : ¬ ((4000 < widthOf b ∧ 0 < d) ∨ (widthOf b < 100 ∧ ¬ 0 < d))) :
    widthOf (handleWheel b d cw ch) = widthOf b * (if 0 < d then 11/10 else 9/10) := by
  push_neg at hno
  obtain ⟨h1, h2⟩ := hno
  by_cases hd : 0 < d
  · have hle : ¬ 4000 < widthOf b := fun hgt => absurd hd (by simpa using h1 hgt)
    simp only [handleWheel, widthOf] at *
    rw [if_pos hd, if_neg, if_neg]
    · simp only [if_pos hd]
      ring
    · rintro ⟨-, hlt⟩
      norm_num at hlt
    · rintro ⟨hgt, -⟩
      exact hle hgt
  · have hge : ¬ widthOf b < 100 := fun hlt => absurd (h2 hlt) hd
    simp only [handleWheel, widthOf] at *
    rw [if_neg hd, if_neg, if_neg]
    · simp only [if_neg hd]
      ring
    · rintro ⟨hlt, -⟩
      exact hge hlt
    · rintro ⟨-, hgt⟩
      norm_num at hgt

/-- One wheel operation keeps the width inside [90, 4400]. -/
theorem handleWheel_width_mem (b : ViewBounds) (d cw ch : ℚ)
    (h90 : 90 ≤ widthOf b) (h44 : widthOf b ≤ 4400) :
    90 ≤ widthOf (handleWheel b d cw ch) ∧ widthOf (handleWheel b d cw ch) ≤ 4400 := by
  by_cases hskip : (4000 < widthOf b ∧ 0 < d) ∨ (widthOf b < 100 ∧ ¬ 0 < d)
  · have : handleWheel b d cw ch = b := by
      rcases hskip with ⟨hw, hd⟩ | ⟨hw, hd⟩
      · exact handleWheel_skip_out b d cw ch hw hd
      · exact handleWheel_skip_in b d cw ch hw hd
    rw [this]
    exact ⟨h90, h44⟩
  · rw [handleWheel_applied_width b d cw ch hskip]
    push_neg at hskip
    obtain ⟨h1, h2⟩ := hskip
    by_cases hd : 0 < d
    · have hub : ¬ 4000 < widthOf b := fun hgt => absurd hd (by simpa using h1 hgt)
      push_neg at hub
      rw [if_pos hd]
      constructor <;> nlinarith
    · have hlb : ¬ widthOf b < 100 := fun hlt => absurd (h2 hlt) hd
      push_neg at hlb
      rw [if_neg hd]
      constructor <;> nlinarith

/-- Any wheel sequence from a box with width in [90, 4400] stays in
[90, 4400]. -/
theorem wheelSeq_width_mem (ops : List (ℚ × ℚ × ℚ)) (b : ViewBounds)
    (h90 : 90 ≤ widthOf b) (h44 : widthOf b ≤ 4400) :
    90 ≤ widthOf (wheelSeq b ops) ∧ widthOf (wheelSeq b ops) ≤ 4400 := by
  induction ops generalizing b with
  | nil => exact ⟨h90, h44⟩
  | cons op rest ih =>
    have hstep := handleWheel_width_mem b op.1 op.2.1 op.2.2 h90 h44
    exact ih (handleWheel b op.1 op.2.1 op.2.2) hstep.1 hstep.2

/-- Counterexample to claim C3: at a box of width exactly 4000 a zoom-out
operation is NOT rejected, and it produces a box of width 4400, which exceeds
the configured upper width bound 4000 — the guard compares the current width
against the bound, not the resulting width. -/
theorem handleWheel_bound_counterexample :
    widthOf (handleWheel ⟨0, 0, 4000, 3000⟩ 1 800 600) = 4400 ∧
    (4000 : ℚ) < 4400 ∧
    handleWheel ⟨0, 0, 4000, 3000⟩ 1 800 600 ≠ ⟨0, 0, 4000, 3000⟩ := by
  refine ⟨?_, by norm_num, ?_⟩
  · simp only [handleWheel, widthOf]
    norm_num
  · simp only [handleWheel]
    norm_num

/-- Claim C3 (amended): the guard tests the current width, so a zoom-out is
rejected (box unchanged) exactly at current width above 4000 and a zoom-in at
current width below 100; an applied operation multiplies the width by the
factor, so the width may overshoot the configured bounds by one factor
application, and from any box with width in [90, 4400] every finite zoom
sequence keeps the width in [90, 4400]. -/
theorem zoomBounds_amended (b : ViewBounds) (ops : List (ℚ × ℚ × ℚ))
    (h90 : 90 ≤ widthOf b) (h44 : widthOf b ≤ 4400) :
    (90 ≤ widthOf (wheelSeq b ops) ∧ widthOf (wheelSeq b ops) ≤ 4400) ∧
    (∀ d cw ch, 4000 < widthOf b → 0 < d → handleWheel b d cw ch = b) ∧
    (∀ d cw ch, widthOf b < 100 → ¬ 0 < d → handleWheel b d cw ch = b) ∧
    (∀ d cw ch, ¬ ((4000 < widthOf b ∧ 0 < d) ∨ (widthOf b < 100 ∧ ¬ 0 < d)) →
      widthOf (handleWheel b d cw ch) = widthOf b * (if 0 < d then 11/10 else 9/10)) := by
  refine ⟨wheelSeq_width_mem ops b h90 h44, ?_, ?_, ?_⟩
  · intro d cw ch hw hd
    exact handleWheel_skip_out b d cw ch hw hd
  · intro d cw ch hw hd
    exact handleWheel_skip_in b d cw ch hw hd
  · intro d cw ch hno
    exact handleWheel_applied_width b d cw ch hno

/-- Witness for the amended C3 at a concrete box of width 4200 and a
two-operation sequence. -/
theorem zoomBounds_amended_witness :
    ((90 ≤ widthOf (wheelSeq ⟨0, 0, 4200, 100⟩ [(1, 800, 600), (-1, 800, 600)]) ∧
      widthOf (wheelSeq ⟨0, 0, 4200, 100⟩ [(1, 800, 600), (-1, 800, 600)]) ≤ 4400) ∧
     (∀ d cw ch, 4000 < widthOf ⟨0, 0, 4200, 100⟩ → 0 < d →
        handleWheel ⟨0, 0, 4200, 100⟩ d cw ch = ⟨0, 0, 4200, 100⟩) ∧
     (∀ d cw ch, widthOf ⟨0, 0, 4200, 100⟩ < 100 → ¬ 0 < d →
        handleWheel ⟨0, 0, 4200, 100⟩ d cw ch = ⟨0, 0, 4200, 100⟩) ∧
     (∀ d cw ch, ¬ ((4000 < widthOf ⟨0, 0, 4200, 100⟩ ∧ 0 < d) ∨
          (widthOf ⟨0, 0, 4200, 100⟩ < 100 ∧ ¬ 0 < d)) →
        widthOf (handleWheel ⟨0, 0, 4200, 100⟩ d cw ch)
          = widthOf ⟨0, 0, 4200, 100⟩ * (if 0 < d then 11/10 else 9/10))) :=
  zoomBounds_amended ⟨0, 0, 4200, 100⟩ [(1, 800, 600), (-1, 800, 600)]
    (by norm_num [widthOf]) (by norm_num [widthOf])

/-- Claim C10: the initial view has width 1000 (800-unit world plus 100 of
padding each side); after any finite sequence of wheel-zoom operations the
width lies in [90, 4400]; zoom-out is skipped above width 4000 and zoom-in
below width 100, and an applied operation scales the width by 1.1 or 0.9 (so
the thresholds are overshot by at most one factor application). -/
theorem wheelZoom_default_invariant :
    widthOf initialView = 1000 ∧
    (∀ ops : List (ℚ × ℚ × ℚ),
      90 ≤ widthOf (wheelSeq initialView ops) ∧ widthOf (wheelSeq initialView ops) ≤ 4400) ∧
    (∀ b : ViewBounds, ∀ d cw ch : ℚ, 4000 < widthOf b → 0 < d → handleWheel b d cw ch = b) ∧
    (∀ b : ViewBounds, ∀ d cw ch : ℚ, widthOf b < 100 → ¬ 0 < d → handleWheel b d cw ch = b) := by
  refine ⟨by norm_num [widthOf, initialView], ?_, ?_, ?_⟩
  · intro ops
    exact wheelSeq_width_mem ops initialView (by norm_num [widthOf, initialView])
      (by norm_num [widthOf, initialView])
  · intro b d cw ch hw hd
    exact handleWheel_skip_out b d cw ch hw hd
  · intro b d cw ch hw hd
    exact handleWheel_skip_in b d cw ch hw hd

/-- Witness for C10: a concrete three-operation zoom sequence from the
default view, plus the two skip rules at concrete boxes. -/
theorem wheelZoom_default_invariant_witness :
    (90 ≤ widthOf (wheelSeq initialView [(1, 800, 600), (1, 800, 600), (-1, 800, 600)]) ∧
     widthOf (wheelSeq initialView [(1, 800, 600), (1, 800, 600), (-1, 800, 600)]) ≤ 4400) ∧
    handleWheel ⟨0, 0, 4001, 100⟩ 2 800 600 = ⟨0, 0, 4001, 100⟩ ∧
    handleWheel ⟨0, 0, 99, 100⟩ (-2) 800 600 = ⟨0, 0, 99, 100⟩ := by
  refine ⟨(wheelZoom_default_invariant.2.1) [(1, 800, 600), (1, 800, 600), (-1, 800, 600)], ?_, ?_⟩
  · exact (wheelZoom_default_invariant.2.2.1) ⟨0, 0, 4001, 100⟩ 2 800 600
      (by norm_num [widthOf]) (by norm_num)
  · exact (wheelZoom_default_invariant.2.2.2) ⟨0, 0, 99, 100⟩ (-2) 800 600
      (by norm_num [widthOf]) (by norm_num)

/-!
Sanitize and remap section of `interpretVoiceCommand` (ErrorBoundary.tsx
lines 389-433): ids of new bodies are minted by appending a per-command
suffix (the last four digits of the current time), an old-to-new id map is
accumulated, numeric fields are sanitized, and new constraints are rewritten
through the id map.
-/

/-- Minted id for a new body: the model-supplied id concatenated with an
underscore and the per-command suffix (line 396). -/
def mint (id suffix : String) : String := id ++ "_" ++ suffix

/-- The id map accumulated over `result.newBodies` (lines 390-398), latest
binding first, so `List.lookup` returns the latest binding for a key exactly
as a JS object lookup does. -/
def idMapOf (suffix : String) (newBodies : List BodyDef) : List (String × String) :=
  newBodies.foldl (fun m b => (b.id, mint b.id suffix) :: m) []

/-- Sanitization of one new body (lines 394-409): mint the id, force
friction, x and y through `sanitizeNumber` (an absent field parses to NaN and
takes the fallback), and sanitize the shape field matching the declared
type. -/
def sanitizeNewBody (suffix : String) (b : BodyDef) : BodyDef :=
  { b with
    id := mint b.id suffix,
    friction := some (sanitizeNumber (b.friction.getD .nan) 0 1 (some (.num (1/10)))),
    x := some (sanitizeNumber (b.x.getD .nan) (-2000) 2000 (some (.num 400))),
    y := some (sanitizeNumber (b.y.getD .nan) (-2000) 2000 (some (.num 300))),
    radius := if b.type = some "circle"
      then some (sanitizeNumber (b.radius.getD .nan) 1 400 (some (.num 20)))
      else b.radius,
    width := if b.type = some "rectangle"
      then some (sanitizeNumber (b.width.getD .nan) 1 2000 (some (.num 100)))
      else b.width,
    height := if b.type = some "rectangle"
      then some (sanitizeNumber (b.height.getD .nan) 1 2000 (some (.num 20)))
      else b.height }

/-- Sanitization of one updated-body fragment (lines 413-422): each numeric
field is sanitized only when present, with the field's own value as
fallback. -/
def sanitizeUpdatedBody (b : BodyDef) : BodyDef :=
  { b with
    friction := b.friction.map (fun v => sanitizeNumber v 0 1 (some (.num (1/10)))),
    x := b.x.map (fun v => sanitizeNumber v (-2000) 2000 (some v)),
    y := b.y.map (fun v => sanitizeNumber v (-2000) 2000 (some v)),
    radius := b.radius.map (fun v => sanitizeNumber v 1 400 (some v)),
    width := b.width.map (fun v => sanitizeNumber v 1 2000 (some v)),
    height := b.height.map (fun v => sanitizeNumber v 1 2000 (some v)) }

/-- Remapping and sanitization of one new constraint (lines 425-432).
`bodyAId` is rewritten whenever the id map has a (necessarily non-empty,
hence truthy) binding for it; `bodyBId` is rewritten only when it is truthy
itself, i.e. present AND non-empty (`c.bodyBId && idMap[c.bodyBId]`). -/
def remapConstraint (idMap : List (String × String)) (c : ConstraintDef) : ConstraintDef :=
  { c with
    bodyAId := match idMap.lookup c.bodyAId with
      | some newId => newId
      | none => c.bodyAId,
    bodyBId := match c.bodyBId with
      | none => none
      | some bid =>
        if bid ≠ "" then
          match idMap.lookup bid with
          | some newId => some newId
          | none => some bid
        else some bid,
    stiffness := c.stiffness.map (fun v => sanitizeNumber v (1/1000) 1 (some (.num (1/10)))),
    length := c.length.map (fun v => sanitizeNumber v 1 1000 none) }

/-- The whole sanitize-and-remap step applied to a parsed voice-command
response (lines 389-433). -/
def sanitizeCommand (suffix : String) (result : VoiceCommandResponse) : VoiceCommandResponse :=
  let idMap := idMapOf suffix (result.newBodies.getD [])
  { result with
    newBodies := result.newBodies.map (fun l => l.map (sanitizeNewBody suffix)),
    updatedBodies := result.updatedBodies.map (fun l => l.map sanitizeUpdatedBody),
    newConstraints := result.newConstraints.map (fun l => l.map (remapConstraint idMap)) }

/-!
Scene merge (App.tsx `toggleRecording`, lines 269-316): the additions/updates
callback (269-295) and the removals callback (298-316), composed in program
order as three passes — update, add, remove.
-/

/-- JavaScript object spread `{ ...b, ...u }` where `u` is a (possibly
partial) body: every key present in `u` overwrites, absent keys keep `b`'s
value. -/
def ov {α : Type} (old new : Option α) : Option α :=
  match new with
  | some v => some v
  | none => old

/-- Spread-merge of an update fragment into an existing body (App.tsx line
283). -/
def spreadBody (b u : BodyDef) : BodyDef :=
  { id := u.id,
    type := ov b.type u.type,
    x := ov b.x u.x,
    y := ov b.y u.y,
    width := ov b.width u.width,
    height := ov b.height u.height,
    radius := ov b.radius u.radius,
    angle := ov b.angle u.angle,
    isStatic := ov b.isStatic u.isStatic,
    color := ov b.color u.color,
    friction := ov b.friction u.friction }

/-- One update fragment applied to the body list (App.tsx lines 279-285):
`findIndex` locates the first body with the fragment's id; if found it is
replaced by the spread-merge, otherwise the list is unchanged. -/
def applyFragment : List BodyDef → BodyDef → List BodyDef
  | [], _ => []
  | b :: rest, u => if b.id = u.id then spreadBody b u :: rest else b :: applyFragment rest u

/-- The update pass: all fragments folded left over the body list (the
`forEach` of line 279). -/
def updatePass (bodies : List BodyDef) (updates : List BodyDef) : List BodyDef :=
  updates.foldl applyFragment bodies

/-- Update pass on the scene (App.tsx lines 275-286). -/
def updatePassScene (s : SceneConfig) (r : VoiceCommandResponse) : SceneConfig :=
  { s with bodies := updatePass s.bodies (r.updatedBodies.getD []) }

/-- Add pass on the scene (App.tsx lines 288-292): new bodies and new
constraints are appended, unconditionally. -/
def addPassScene (s : SceneConfig) (r : VoiceCommandResponse) : SceneConfig :=
  { bodies := s.bodies ++ r.newBodies.getD [],
    constraints := s.constraints ++ r.newConstraints.getD [] }

/-- The removal filter kept for a constraint (App.tsx lines 309-312):
`!idsToRemove.includes(c.bodyAId) && (!c.bodyBId ||
!idsToRemove.includes(c.bodyBId))` — note that an empty-string `bodyBId` is
falsy and short-circuits the second test. -/
def constraintKeep (idsToRemove : List String) (c : ConstraintDef) : Bool :=
  !idsToRemove.contains c.bodyAId &&
    (match c.bodyBId with
     | none => true
     | some bid => bid == "" || !idsToRemove.contains bid)

/-- Remove pass on the scene (App.tsx lines 298-316). -/
def removePassScene (s : SceneConfig) (r : VoiceCommandResponse) : SceneConfig :=
  let idsToRemove := r.removeBodyIds.getD []
  { bodies := s.bodies.filter (fun b => !idsToRemove.contains b.id),
    constraints := s.constraints.filter (fun c => constraintKeep idsToRemove c) }

/-- A voice command applied to a scene: the update, add and remove passes in
program order. -/
def applyVoiceCommand (s : SceneConfig) (r : VoiceCommandResponse) : SceneConfig :=
  removePassScene (addPassScene (updatePassScene s r) r) r

/-!
Data-model invariants (spec section 3) and the world construction of
SimulationCanvas.tsx (lines 67-143), where bodies with non-finite positions
are skipped and constraints whose `bodyAId` does not resolve in the built
body map are silently dropped.
-/

/-- The ids of a body list. -/
def bodyIdsOf (l : List BodyDef) : List String := l.map (·.id)

/-- Whether an id resolves to some body of the list. -/
def resolvesIn (l : List BodyDef) (i : String) : Bool := l.any (fun b => b.id == i)

/-- Both references of a constraint resolve in the body list (`bodyBId`
vacuously when absent). -/
def constraintRefsOk (l : List BodyDef) (c : ConstraintDef) : Bool :=
  resolvesIn l c.bodyAId &&
    (match c.bodyBId with
     | none => true
     | some bid => resolvesIn l bid)

/-- The Data Model invariants of spec section 3: body ids unique, and every
constraint's body references exist in the same scene. -/
def sceneInv (s : SceneConfig) : Prop :=
  (bodyIdsOf s.bodies).Nodup ∧ ∀ c ∈ s.constraints, constraintRefsOk s.bodies c = true

/-- A body is added to the world and the `bodiesMap` only when both
coordinates are finite (SimulationCanvas.tsx line 100); an absent coordinate
is `undefined`, which is not finite. -/
def finitePos (b : BodyDef) : Bool :=
  (b.x.getD .nan).isFiniteNum && (b.y.getD .nan).isFiniteNum

/-- The bodies actually built into the physics world. -/
def builtBodies (l : List BodyDef) : List BodyDef := l.filter finitePos

/-- Whether `bodiesMap.get(i)` is defined during world construction. -/
def resolvesBuilt (l : List BodyDef) (i : String) : Bool :=
  (builtBodies l).any (fun b => b.id == i)

/-- The constraints actually created in the physics world
(SimulationCanvas.tsx lines 116-143): only those whose `bodyAId` resolves in
the built body map (`if (bodyA)`). -/
def worldConstraints (s : SceneConfig) : List ConstraintDef :=
  s.constraints.filter (fun c => resolvesBuilt s.bodies c.bodyAId)

/-- A command carrying a single update fragment and nothing else. -/
def updateOnlyCommand (frag : BodyDef) : VoiceCommandResponse :=
  { updatedBodies := some [frag] }

/-- With an empty removal list every body survives the remove-pass filter. -/
theorem filter_remove_nil (l : List BodyDef) :
    l.filter (fun b => !List.contains [] b.id) = l := by
  apply List.filter_eq_self.mpr
  intro b _
  rfl

/-- With an empty removal list every constraint survives the remove-pass
filter. -/
theorem filter_keep_nil (l : List ConstraintDef) :
    l.filter (fun c => constraintKeep [] c) = l := by
  apply List.filter_eq_self.mpr
  intro c _
  unfold constraintKeep
  cases c.bodyBId with
  | none => rfl
  | some bid => simp

/-- An update-only command reduces to one `applyFragment` on the bodies. -/
theorem applyVoiceCommand_updateOnly (s : SceneConfig) (frag : BodyDef) :
    applyVoiceCommand s (updateOnlyCommand frag)
      = ⟨applyFragment s.bodies frag, s.constraints⟩ := by
  simp only [applyVoiceCommand, updatePassScene, addPassScene, removePassScene,
    updateOnlyCommand, updatePass, Option.getD, List.foldl, List.append_nil]
  rw [filter_remove_nil, filter_keep_nil]

/-- A fragment whose id matches no body leaves the list unchanged. -/
theorem applyFragment_no_match (l : List BodyDef) (u : BodyDef)
    (h : ∀ b ∈ l, b.id ≠ u.id) : applyFragment l u = l := by
  induction l with
  | nil => rfl
  | cons b rest ih =>
    simp only [applyFragment]
    rw [if_neg (h b (List.mem_cons_self b rest))]
    rw [ih (fun x hx => h x (List.mem_cons_of_mem b hx))]

/-- Replacing nothing: a conditional map over bodies none of which match. -/
theorem map_no_match (l : List BodyDef) (u : BodyDef) (g : BodyDef → BodyDef)
    (h : ∀ b ∈ l, b.id ≠ u.id) :
    l.map (fun x => if x.id = u.id then g x else x) = l := by
  induction l with
  | nil => rfl
  | cons b rest ih =>
    simp only [List.map]
    rw [if_neg (h b (List.mem_cons_self b rest))]
    rw [ih (fun x hx => h x (List.mem_cons_of_mem b hx))]

/-- Under unique ids, the first-match replacement of `applyFragment` equals
the pointwise conditional replacement. -/
theorem applyFragment_eq_map (l : List BodyDef) (u : BodyDef)
    (hnodup : (bodyIdsOf l).Nodup) :
    applyFragment l u = l.map (fun x => if x.id = u.id then spreadBody x u else x) := by
  induction l with
  | nil => rfl
  | cons b rest ih =>
    simp only [bodyIdsOf, List.map_cons, List.nodup_cons] at hnodup
    obtain ⟨hnotin, hrest⟩ := hnodup
    simp only [applyFragment, List.map]
    by_cases h : b.id = u.id
    · rw [if_pos h, if_pos h]
      have hnomatch : ∀ x ∈ rest, x.id ≠ u.id := by
        intro x hx hxid
        apply hnotin
        rw [h, ← hxid]
        exact List.mem_map_of_mem (fun y => y.id) hx
      rw [map_no_match rest u _ hnomatch]
    · rw [if_neg h, if_neg h, ih hrest]

/-- Specification-side characterization of the update spread (spec section
4.4, pass 1, for claim C7): the merged record has exactly the fragment's
defined fields overwritten, and every field absent from the fragment keeps
its prior value. -/
def overwritesPerSpec (old merged frag : BodyDef) : Prop :=
  merged.id = old.id
  ∧ (∀ v, frag.type = some v → merged.type = some v) ∧ (frag.type = none → merged.type = old.type)
  ∧ (∀ v, frag.x = some v → merged.x = some v) ∧ (frag.x = none → merged.x = old.x)
  ∧ (∀ v, frag.y = some v → merged.y = some v) ∧ (frag.y = none → merged.y = old.y)
  ∧ (∀ v, frag.width = some v → merged.width = some v)
  ∧ (frag.width = none → merged.width = old.width)
  ∧ (∀ v, frag.height = some v → merged.height = some v)
  ∧ (frag.height = none → merged.height = old.height)
  ∧ (∀ v, frag.radius = some v → merged.radius = some v)
  ∧ (frag.radius = none → merged.radius = old.radius)
  ∧ (∀ v, frag.angle = some v → merged.angle = some v)
  ∧ (frag.angle = none → merged.angle = old.angle)
  ∧ (∀ v, frag.isStatic = some v → merged.isStatic = some v)
  ∧ (frag.isStatic = none → merged.isStatic = old.isStatic)
  ∧ (∀ v, frag.color = some v → merged.color = some v)
  ∧ (frag.color = none → merged.color = old.color)
  ∧ (∀ v, frag.friction = some v → merged.friction = some v)
  ∧ (frag.friction = none → merged.friction = old.friction)

/-- The spread-merge satisfies the specification characterization whenever
the ids match (which `findIndex` guarantees). -/
theorem spreadBody_overwrites (b u : BodyDef) (h : b.id = u.id) :
    overwritesPerSpec b (spreadBody b u) u := by
  refine ⟨h ▸ rfl, ?_, ?_, ?_, ?_, ?_, ?_, ?_, ?_, ?_, ?_, ?_, ?_, ?_, ?_, ?_, ?_, ?_, ?_, ?_, ?_⟩
    <;> first
      | (intro v hv; simp [spreadBody, ov, hv])
      | (intro hv; simp [spreadBody, ov, hv])

/-- Claim C7: for every scene (with unique body ids) and every updated-body
fragment: if no body carries the fragment's id, the merged scene is unchanged
(the fragment is not added); if a body carries it, the merged scene replaces
exactly that body by the spread-merge — keeping the constraints — and the
replacement has exactly the fragment's defined fields overwritten and every
absent field at its prior value. -/
theorem updateFragment_frameEffect (s : SceneConfig) (frag : BodyDef)
    (hnodup : (bodyIdsOf s.bodies).Nodup) :
    ((∀ b ∈ s.bodies, b.id ≠ frag.id) →
        applyVoiceCommand s (updateOnlyCommand frag) = s) ∧
    (∀ b ∈ s.bodies, b.id = frag.id →
        (applyVoiceCommand s (updateOnlyCommand frag)).bodies
          = s.bodies.map (fun x => if x.id = frag.id then spreadBody x frag else x) ∧
        (applyVoiceCommand s (updateOnlyCommand frag)).constraints = s.constraints ∧
        overwritesPerSpec b (spreadBody b frag) frag) := by
  constructor
  · intro h
    rw [applyVoiceCommand_updateOnly, applyFragment_no_match s.bodies frag h]
  · intro b hb hid
    rw [applyVoiceCommand_updateOnly]
    exact ⟨applyFragment_eq_map s.bodies frag hnodup,
           rfl,
           spreadBody_overwrites b frag hid⟩

/-- A concrete scene body (a rectangle at (1, 2)). -/
def c7Body : BodyDef :=
  { id := "box", type := some "rectangle", x := some (.num 1), y := some (.num 2),
    width := some (.num 100), height := some (.num 20), isStatic := some false }

/-- A concrete friction-only update fragment for `c7Body`. -/
def c7Frag : BodyDef := { id := "box", friction := some (.num (9/10)) }

/-- A concrete one-body scene. -/
def c7Scene : SceneConfig := { bodies := [c7Body], constraints := [] }

/-- Witness for C7: the friction-only update on the one-body scene replaces
exactly that body, keeps the constraints, and satisfies the field-wise
characterization (position and shape unchanged). -/
theorem updateFragment_frameEffect_witness :
    (applyVoiceCommand c7Scene (updateOnlyCommand c7Frag)).bodies
      = c7Scene.bodies.map (fun x => if x.id = c7Frag.id then spreadBody x c7Frag else x) ∧
    (applyVoiceCommand c7Scene (updateOnlyCommand c7Frag)).constraints = c7Scene.constraints ∧
    overwritesPerSpec c7Body (spreadBody c7Body c7Frag) c7Frag :=
  (updateFragment_frameEffect c7Scene c7Frag (by
      simp [bodyIdsOf, c7Scene])).2 c7Body (by simp [c7Scene]) rfl

/-!
Claim C6: identity remapping.  The key lemma characterizes lookups in the
accumulated id map: a key bound by some new body maps to its minted id
(which only depends on the key), and any other key is absent.
-/

/-- Lookup in the id-map fold, with a generalized accumulator. -/
theorem idMapOf_lookup_aux (suffix : String) (bodies : List BodyDef)
    (acc : List (String × String)) (x : String) :
    (bodies.foldl (fun m b => (b.id, mint b.id suffix) :: m) acc).lookup x
      = if bodies.any (fun b => b.id == x) then some (mint x suffix)
        else acc.lookup x := by
  induction bodies generalizing acc with
  | nil => simp
  | cons b rest ih =>
    simp only [List.foldl, List.any_cons]
    rw [ih]
    by_cases hb : b.id = x
    · subst hb
      by_cases hr : rest.any (fun b' => b'.id == b.id)
      · simp [hr]
      · simp [hr, List.lookup]
    · by_cases hr : rest.any (fun b' => b'.id == x)
      · simp [hr]
      · have hbx : (b.id == x) = false := beq_eq_false_iff_ne.mpr hb
        have hxb : (x == b.id) = false := beq_eq_false_iff_ne.mpr (Ne.symm hb)
        simp [hr, hbx, List.lookup, hxb]

/-- Lookup in the id map built over the new bodies. -/
theorem idMapOf_lookup (suffix : String) (bodies : List BodyDef) (x : String) :
    (idMapOf suffix bodies).lookup x
      = if bodies.any (fun b => b.id == x) then some (mint x suffix) else none := by
  rw [idMapOf, idMapOf_lookup_aux]
  rfl

/-- Resolving the boolean `any` condition against existence of a matching
new body. -/
theorem any_id_eq_iff (bodies : List BodyDef) (x : String) :
    bodies.any (fun b => b.id == x) = true ↔ ∃ b ∈ bodies, b.id = x := by
  simp [List.any_eq_true]

/-- A new body with the empty string as model id, for the counterexample. -/
def c6Body : BodyDef :=
  { id := "", type := some "circle", x := some (.num 400), y := some (.num 200),
    radius := some (.num 20), isStatic := some false }

/-- A new constraint whose `bodyBId` equals the empty model id. -/
def c6Constraint : ConstraintDef := { bodyAId := "anchor", bodyBId := some "" }

/-- The raw command holding both. -/
def c6Raw : VoiceCommandResponse :=
  { newBodies := some [c6Body], newConstraints := some [c6Constraint] }

/-- Counterexample to claim C6: for the command containing a new body with
model id `""` and a constraint whose `bodyBId` equals that id, the minted id
of the body is `"_1234"` but after remapping the constraint's `bodyBId` is
still `some ""` — the empty string is falsy, so `c.bodyBId &&
idMap[c.bodyBId]` skips the rewrite. -/
theorem remapConsistency_counterexample :
    bodyIdsOf ((sanitizeCommand "1234" c6Raw).newBodies.getD []) = [mint "" "1234"] ∧
    ((sanitizeCommand "1234" c6Raw).newConstraints.getD []).map (fun c => c.bodyBId)
      = [some ""] ∧
    ("" : String) ≠ mint "" "1234" := by
  refine ⟨rfl, rfl, by decide⟩

/-- Claim C6 (amended): remapping is consistent within one command for
`bodyAId` always, and for `bodyBId` provided the referenced model id is
non-empty (an empty-string `bodyBId` fails the truthiness guard and passes
through unchanged); ids bound by no new body pass through unchanged, and
every new body's sanitized id is exactly the minted id. -/
theorem remapConsistency (suffix : String) (r : VoiceCommandResponse) :
    ((sanitizeCommand suffix r).newConstraints
        = r.newConstraints.map (fun l => l.map
            (remapConstraint (idMapOf suffix (r.newBodies.getD []))))) ∧
    (∀ b : BodyDef, (sanitizeNewBody suffix b).id = mint b.id suffix) ∧
    (∀ c ∈ r.newConstraints.getD [],
      ((∃ b ∈ r.newBodies.getD [], b.id = c.bodyAId) →
          (remapConstraint (idMapOf suffix (r.newBodies.getD [])) c).bodyAId
            = mint c.bodyAId suffix) ∧
      ((¬ ∃ b ∈ r.newBodies.getD [], b.id = c.bodyAId) →
          (remapConstraint (idMapOf suffix (r.newBodies.getD [])) c).bodyAId = c.bodyAId) ∧
      (∀ bid, c.bodyBId = some bid → bid ≠ "" →
          (∃ b ∈ r.newBodies.getD [], b.id = bid) →
          (remapConstraint (idMapOf suffix (r.newBodies.getD [])) c).bodyBId
            = some (mint bid suffix)) ∧
      (∀ bid, c.bodyBId = some bid →
          (¬ ∃ b ∈ r.newBodies.getD [], b.id = bid) →
          (remapConstraint (idMapOf suffix (r.newBodies.getD [])) c).bodyBId = some bid)) := by
  refine ⟨rfl, fun b => rfl, ?_⟩
  intro c _
  refine ⟨?_, ?_, ?_, ?_⟩
  · intro hex
    have : (r.newBodies.getD []).any (fun b => b.id == c.bodyAId) = true :=
      (any_id_eq_iff _ _).mpr hex
    simp only [remapConstraint, idMapOf_lookup, this, if_true]
  · intro hnex
    have : ¬ (r.newBodies.getD []).any (fun b => b.id == c.bodyAId) = true :=
      fun h => hnex ((any_id_eq_iff _ _).mp h)
    have hfalse : (r.newBodies.getD []).any (fun b => b.id == c.bodyAId) = false :=
      Bool.not_eq_true _ ▸ Bool.of_not_eq_true this
    simp only [remapConstraint, idMapOf_lookup, hfalse, if_false]
    simp
  · intro bid hbid hne hex
    have : (r.newBodies.getD []).any (fun b => b.id == bid) = true :=
      (any_id_eq_iff _ _).mpr hex
    simp only [remapConstraint, idMapOf_lookup, hbid, this, if_true]
    rw [if_pos hne]
  · intro bid hbid hnex
    have : ¬ (r.newBodies.getD []).any (fun b => b.id == bid) = true :=
      fun h => hnex ((any_id_eq_iff _ _).mp h)
    have hfalse : (r.newBodies.getD []).any (fun b => b.id == bid) = false :=
      Bool.of_not_eq_true this
    simp only [remapConstraint, idMapOf_lookup, hbid, hfalse, if_false]
    by_cases hne : bid = ""
    · simp [hne]
    · simp [hne]

/-- A concrete new body for the C6 witness. -/
def c6wBody : BodyDef :=
  { id := "ball", type := some "circle", x := some (.num 400), y := some (.num 200),
    isStatic := some false }

/-- A concrete new constraint referencing the new body as `bodyAId` and a
pre-existing id as `bodyBId`. -/
def c6wConstraint : ConstraintDef := { bodyAId := "ball", bodyBId := some "pivot" }

/-- The C6 witness command. -/
def c6wRaw : VoiceCommandResponse :=
  { newBodies := some [c6wBody], newConstraints := some [c6wConstraint] }

/-- Witness for the amended C6: the constraint referencing the new body
`"ball"` gets the minted `bodyAId`, and the unmapped `bodyBId` `"pivot"`
passes through unchanged. -/
theorem remapConsistency_witness :
    (remapConstraint (idMapOf "5678" (c6wRaw.newBodies.getD [])) c6wConstraint).bodyAId
      = mint c6wConstraint.bodyAId "5678" ∧
    (remapConstraint (idMapOf "5678" (c6wRaw.newBodies.getD [])) c6wConstraint).bodyBId
      = some "pivot" := by
  have h3 := (remapConsistency "5678" c6wRaw).2.2 c6wConstraint (by simp [c6wRaw])
  refine ⟨h3.1 ⟨c6wBody, by simp [c6wRaw], rfl⟩, ?_⟩
  refine h3.2.2.2 "pivot" rfl ?_
  rintro ⟨b, hb, hid⟩
  simp [c6wRaw] at hb
  subst hb
  exact absurd hid (by decide)

/-!
Claims C1 and C2: the merge result and the Data Model invariants.
-/

/-- The function `applyFragment` preserves the list of body ids (the replacement keeps the
matched id). -/
theorem bodyIdsOf_applyFragment (l : List BodyDef) (u : BodyDef) :
    bodyIdsOf (applyFragment l u) = bodyIdsOf l := by
  induction l with
  | nil => rfl
  | cons b rest ih =>
    simp only [applyFragment]
    by_cases h : b.id = u.id
    · rw [if_pos h]
      simp [bodyIdsOf, spreadBody, h]
    · rw [if_neg h]
      simp only [bodyIdsOf, List.map_cons] at ih ⊢
      rw [ih]

/-- The whole update pass preserves the list of body ids. -/
theorem bodyIdsOf_updatePass (l : List BodyDef) (us : List BodyDef) :
    bodyIdsOf (updatePass l us) = bodyIdsOf l := by
  induction us generalizing l with
  | nil => rfl
  | cons u rest ih =>
    show bodyIdsOf (updatePass (applyFragment l u) rest) = _
    rw [ih, bodyIdsOf_applyFragment]

/-- An id resolves in a body list iff it occurs among the list's ids. -/
theorem resolvesIn_iff (l : List BodyDef) (i : String) :
    resolvesIn l i = true ↔ i ∈ bodyIdsOf l := by
  rw [resolvesIn, List.any_eq_true]
  constructor
  · rintro ⟨b, hb, hbid⟩
    rw [beq_iff_eq] at hbid
    rw [← hbid]
    exact List.mem_map_of_mem (fun y => y.id) hb
  · intro hi
    rw [bodyIdsOf, List.mem_map] at hi
    obtain ⟨b, hb, hbid⟩ := hi
    exact ⟨b, hb, beq_iff_eq.mpr hbid⟩

/-- Resolution survives the removal filter when the id is not removed. -/
theorem resolvesIn_filter (l : List BodyDef) (ids : List String) (j : String)
    (hres : resolvesIn l j = true) (hnotin : j ∉ ids) :
    resolvesIn (l.filter (fun b => !ids.contains b.id)) j = true := by
  rw [resolvesIn, List.any_eq_true] at hres ⊢
  obtain ⟨b, hb, hbid⟩ := hres
  refine ⟨b, ?_, hbid⟩
  rw [List.mem_filter]
  refine ⟨hb, ?_⟩
  rw [beq_iff_eq] at hbid
  simpa [hbid] using hnotin

/-- Constraint-reference validity is monotone in the available ids. -/
theorem constraintRefsOk_mono (l lBig : List BodyDef) (c : ConstraintDef)
    (hsub : ∀ i ∈ bodyIdsOf l, i ∈ bodyIdsOf lBig)
    (h : constraintRefsOk l c = true) : constraintRefsOk lBig c = true := by
  rw [constraintRefsOk, Bool.and_eq_true] at h ⊢
  obtain ⟨h1, h2⟩ := h
  constructor
  · rw [resolvesIn_iff] at h1 ⊢
    exact hsub _ h1
  · cases hB : c.bodyBId with
    | none => simp
    | some bid =>
      rw [hB] at h2
      simp only at h2 ⊢
      rw [resolvesIn_iff] at h2 ⊢
      exact hsub _ h2

/-- A constraint kept by the remove pass keeps valid references, provided the
empty string is not on the removal list (an empty `bodyBId` is falsy and
bypasses the removal test). -/
theorem constraintRefsOk_remove (l : List BodyDef) (ids : List String) (c : ConstraintDef)
    (h : constraintRefsOk l c = true) (hkeep : constraintKeep ids c = true)
    (hempty : "" ∉ ids) :
    constraintRefsOk (l.filter (fun b => !ids.contains b.id)) c = true := by
  rw [constraintRefsOk, Bool.and_eq_true] at h ⊢
  rw [constraintKeep, Bool.and_eq_true] at hkeep
  obtain ⟨h1, h2⟩ := h
  obtain ⟨k1, k2⟩ := hkeep
  constructor
  · apply resolvesIn_filter _ _ _ h1
    simpa using k1
  · cases hB : c.bodyBId with
    | none => simp
    | some bid =>
      rw [hB] at h2 k2
      simp only at h2 k2 ⊢
      by_cases hbe : bid = ""
      · apply resolvesIn_filter _ _ _ h2
        rw [hbe]
        exact hempty
      · apply resolvesIn_filter _ _ _ h2
        have hfalse : (bid == "") = false := beq_eq_false_iff_ne.mpr hbe
        rw [hfalse, Bool.false_or] at k2
        simpa using k2

/-- Two copies of a model body named "ball": after remapping both receive
the same minted id. -/
def c1Ball : BodyDef :=
  { id := "ball", type := some "circle", x := some (.num 400), y := some (.num 200),
    isStatic := some false }

/-- A constraint whose `bodyAId` resolves to no body at all. -/
def c1Ghost : ConstraintDef := { bodyAId := "ghost" }

/-- The raw command of the C1 counterexample. -/
def c1Raw : VoiceCommandResponse :=
  { newBodies := some [c1Ball, c1Ball], newConstraints := some [c1Ghost] }

/-- The scene merged from the empty scene and the sanitized-and-remapped
C1 command. -/
def c1Merged : SceneConfig :=
  applyVoiceCommand ⟨[], []⟩ (sanitizeCommand "1234" c1Raw)

/-- Counterexample to claim C1: the empty scene satisfies the Data Model
invariants, yet merging the sanitized-and-remapped command (two new bodies
sharing model id "ball", one constraint referencing the unknown id "ghost")
yields a scene with duplicated body ids AND a constraint whose `bodyAId`
resolves to no body. -/
theorem mergeInvariant_counterexample :
    sceneInv (⟨[], []⟩ : SceneConfig) ∧
    ¬ (bodyIdsOf c1Merged.bodies).Nodup ∧
    (∃ c ∈ c1Merged.constraints, constraintRefsOk c1Merged.bodies c = false) := by
  refine ⟨⟨by simp [bodyIdsOf], by intro c hc; exact absurd hc (List.not_mem_nil c)⟩, ?_, ?_⟩
  · have hids : bodyIdsOf c1Merged.bodies = ["ball_1234", "ball_1234"] := rfl
    rw [hids]
    simp
  · refine ⟨c1Ghost, ?_, ?_⟩
    · have : c1Merged.constraints = [c1Ghost] := rfl
      rw [this]
      exact List.mem_singleton.mpr rfl
    · rfl

/-- Claim C1 (amended): the update and remove passes preserve the Data Model
invariants, but the add pass appends new bodies and constraints unchecked;
the merged scene satisfies the invariants provided additionally that the
command's new-body ids are pairwise distinct and absent from the scene, every
new constraint resolves in the post-update-and-add body set, and the empty
string is not a removed id (an empty `bodyBId` bypasses the removal test). -/
theorem mergeInvariant_amended (s : SceneConfig) (r : VoiceCommandResponse)
    (hinv : sceneInv s)
    (hnodupNew : (bodyIdsOf (r.newBodies.getD [])).Nodup)
    (hfresh : ∀ i ∈ bodyIdsOf (r.newBodies.getD []), i ∉ bodyIdsOf s.bodies)
    (hnewC : ∀ c ∈ r.newConstraints.getD [],
        constraintRefsOk (addPassScene (updatePassScene s r) r).bodies c = true)
    (hempty : "" ∉ r.removeBodyIds.getD []) :
    sceneInv (applyVoiceCommand s r) := by
  have hidsB2 : bodyIdsOf (addPassScene (updatePassScene s r) r).bodies
      = bodyIdsOf s.bodies ++ bodyIdsOf (r.newBodies.getD []) := by
    show bodyIdsOf (updatePass s.bodies (r.updatedBodies.getD []) ++ r.newBodies.getD []) = _
    rw [bodyIdsOf, List.map_append, ← bodyIdsOf, ← bodyIdsOf, bodyIdsOf_updatePass]
  have hnodupB2 : (bodyIdsOf (addPassScene (updatePassScene s r) r).bodies).Nodup := by
    rw [hidsB2]
    exact List.Nodup.append hinv.1 hnodupNew (fun a ha hb => hfresh a hb ha)
  have hrefsB2 : ∀ c ∈ (addPassScene (updatePassScene s r) r).constraints,
      constraintRefsOk (addPassScene (updatePassScene s r) r).bodies c = true := by
    intro c hc
    have hsplit : (addPassScene (updatePassScene s r) r).constraints
        = s.constraints ++ r.newConstraints.getD [] := rfl
    rw [hsplit, List.mem_append] at hc
    rcases hc with hc | hc
    · refine constraintRefsOk_mono s.bodies _ c ?_ (hinv.2 c hc)
      intro i hi
      rw [hidsB2]
      exact List.mem_append_left _ hi
    · exact hnewC c hc
  constructor
  · show (bodyIdsOf ((addPassScene (updatePassScene s r) r).bodies.filter
      (fun b => !(r.removeBodyIds.getD []).contains b.id))).Nodup
    refine List.Nodup.sublist ?_ hnodupB2
    simp only [bodyIdsOf]
    exact List.Sublist.map (fun b : BodyDef => b.id) (List.filter_sublist _)
  · intro c hc
    have hc' : c ∈ (addPassScene (updatePassScene s r) r).constraints.filter
        (fun c => constraintKeep (r.removeBodyIds.getD []) c) := hc
    rw [List.mem_filter] at hc'
    exact constraintRefsOk_remove _ _ c (hrefsB2 c hc'.1) hc'.2 hempty

/-- A concrete scene for the amended C1 witness: one body "floor", one
constraint anchoring it. -/
def c1wScene : SceneConfig :=
  { bodies := [{ id := "floor", type := some "rectangle", x := some (.num 400),
                 y := some (.num 580), isStatic := some true }],
    constraints := [{ bodyAId := "floor" }] }

/-- A concrete command for the amended C1 witness: adds one body "ball_9999"
with a constraint tying it to the floor, and removes nothing. -/
def c1wCmd : VoiceCommandResponse :=
  { newBodies := some [{ id := "ball_9999", type := some "circle", x := some (.num 400),
                         y := some (.num 100), isStatic := some false }],
    newConstraints := some [{ bodyAId := "ball_9999", bodyBId := some "floor" }],
    removeBodyIds := some ["gone"] }

/-- Witness for the amended C1 at the concrete scene and command. -/
theorem mergeInvariant_amended_witness : sceneInv (applyVoiceCommand c1wScene c1wCmd) :=
  mergeInvariant_amended c1wScene c1wCmd
    (by constructor
        · simp [c1wScene, bodyIdsOf]
        · intro c hc
          simp only [c1wScene, List.mem_singleton] at hc
          subst hc
          rfl)
    (by simp [c1wCmd, bodyIdsOf])
    (by intro i hi
        simp [c1wCmd, bodyIdsOf] at hi
        subst hi
        simp [c1wScene, bodyIdsOf])
    (by intro c hc
        simp only [c1wCmd, Option.getD, List.mem_singleton] at hc
        subst hc
        rfl)
    (by simp [c1wCmd])

/-- The dangling constraint of the C2 counterexample. -/
def c2Ghost : ConstraintDef := { bodyAId := "nosuch" }

/-- The scene merged from the empty scene and a sanitized command holding
only the dangling constraint. -/
def c2Merged : SceneConfig :=
  applyVoiceCommand ⟨[], []⟩
    (sanitizeCommand "1234" { newConstraints := some [c2Ghost] })

/-- Counterexample to claim C2: the new constraint whose `bodyAId` resolves
to no body in the post-update-and-add body set is NOT dropped — it appears in
the merged scene's constraint collection. -/
theorem addPass_dangling_counterexample :
    c2Ghost ∈ c2Merged.constraints ∧
    resolvesIn c2Merged.bodies c2Ghost.bodyAId = false := by
  constructor
  · have : c2Merged.constraints = [c2Ghost] := rfl
    rw [this]
    exact List.mem_singleton.mpr rfl
  · rfl

/-- Claim C2 (amended): the add pass appends every new constraint to the
merged scene's constraint collection — dangling or not, and without failing —
and the silent drop happens at world construction: a constraint whose
`bodyAId` does not resolve among the built bodies is excluded from the
physics world's constraints. -/
theorem addPass_dangling_amended (s : SceneConfig) (r : VoiceCommandResponse)
    (c : ConstraintDef) (hc : c ∈ r.newConstraints.getD []) :
    c ∈ (addPassScene (updatePassScene s r) r).constraints ∧
    (resolvesBuilt (addPassScene (updatePassScene s r) r).bodies c.bodyAId = false →
      c ∉ worldConstraints (addPassScene (updatePassScene s r) r)) := by
  constructor
  · show c ∈ s.constraints ++ r.newConstraints.getD []
    exact List.mem_append_right _ hc
  · intro hres hmem
    rw [worldConstraints, List.mem_filter] at hmem
    rw [hres] at hmem
    exact absurd hmem.2 (by simp)

/-- Witness for the amended C2: the dangling constraint is in the merged
constraint collection of the concrete empty-scene merge, and absent from the
world constraints. -/
theorem addPass_dangling_amended_witness :
    c2Ghost ∈ (addPassScene (updatePassScene ⟨[], []⟩
        { newConstraints := some [c2Ghost] }) { newConstraints := some [c2Ghost] }).constraints ∧
    (resolvesBuilt (addPassScene (updatePassScene (⟨[], []⟩ : SceneConfig)
        { newConstraints := some [c2Ghost] }) { newConstraints := some [c2Ghost] }).bodies
        c2Ghost.bodyAId = false →
      c2Ghost ∉ worldConstraints (addPassScene (updatePassScene ⟨[], []⟩
        { newConstraints := some [c2Ghost] }) { newConstraints := some [c2Ghost] })) :=
  addPass_dangling_amended ⟨[], []⟩ { newConstraints := some [c2Ghost] } c2Ghost
    (List.mem_singleton.mpr rfl)

/-!
Claim C8: `cleanJson` (ErrorBoundary.tsx lines 83-96) and the response-parse
block of `interpretVoiceCommand` (lines 380-387).  Text is modelled as
`List Char`.  `String.prototype.replace` with a global literal pattern and
empty replacement is `stripTok`: a left-to-right, non-overlapping removal of
every occurrence (fuel-indexed so that it is structurally recursive; the fuel
equals the input length, which never runs out since each step consumes at
least one character).
-/

/-- Boolean prefix test on character lists. -/
def isPrefixList : List Char → List Char → Bool
  | [], _ => true
  | _ :: _, [] => false
  | a :: as, b :: bs => a == b && isPrefixList as bs

/-- Fuel-indexed single-pattern global removal. -/
def stripTokF (pat : List Char) : Nat → List Char → List Char
  | 0, s => s
  | _ + 1, [] => []
  | n + 1, c :: rest =>
    if pat ≠ [] ∧ isPrefixList pat (c :: rest) = true then
      stripTokF pat n ((c :: rest).drop pat.length)
    else c :: stripTokF pat n rest

/-- Remove every occurrence of `pat` from `s`, left to right, without
rescanning — the behavior of `s.replace(/pat/g, "")`. -/
def stripTok (pat s : List Char) : List Char := stripTokF pat s.length s

/-- Characterization of the boolean prefix test. -/
theorem isPrefixList_iff (p : List Char) : ∀ s : List Char,
    isPrefixList p s = true ↔ ∃ t, s = p ++ t := by
  induction p with
  | nil =>
    intro s
    simp [isPrefixList]
  | cons a as ih =>
    intro s
    cases s with
    | nil =>
      simp [isPrefixList]
    | cons b bs =>
      simp only [isPrefixList, Bool.and_eq_true, beq_iff_eq, ih bs, List.cons_append,
        List.cons.injEq]
      constructor
      · rintro ⟨rfl, t, rfl⟩
        exact ⟨t, rfl, rfl⟩
      · rintro ⟨t, rfl, rfl⟩
        exact ⟨rfl, t, rfl⟩

/-- A prefix is no longer than the list. -/
theorem isPrefixList_length (p s : List Char) (h : isPrefixList p s = true) :
    p.length ≤ s.length := by
  obtain ⟨t, rfl⟩ := (isPrefixList_iff p s).mp h
  simp

/-- A prefix of `s` is a prefix of `s ++ t`. -/
theorem isPrefixList_append_right (p s t : List Char) (h : isPrefixList p s = true) :
    isPrefixList p (s ++ t) = true := by
  obtain ⟨u, rfl⟩ := (isPrefixList_iff p s).mp h
  exact (isPrefixList_iff p _).mpr ⟨u ++ t, by simp⟩

/-- A short-enough prefix of `s ++ t` is already a prefix of `s`. -/
theorem isPrefixList_of_le (p s t : List Char) (h : isPrefixList p (s ++ t) = true)
    (hle : p.length ≤ s.length) : isPrefixList p s = true := by
  obtain ⟨u, hu⟩ := (isPrefixList_iff p (s ++ t)).mp h
  have hp : s.take p.length = p := by
    have hcong := congrArg (List.take p.length) hu
    rw [List.take_append_eq_append_take, List.take_append_eq_append_take,
        Nat.sub_eq_zero_of_le hle, Nat.sub_self, List.take_zero, List.take_zero,
        List.append_nil, List.append_nil, List.take_length] at hcong
    exact hcong
  refine (isPrefixList_iff p s).mpr ⟨s.drop p.length, ?_⟩
  have hsplit : s = s.take p.length ++ s.drop p.length := (List.take_append_drop _ _).symm
  rw [hp] at hsplit
  exact hsplit

/-- A prefix of `pre ++ '\x7b' :: tail` longer than `pre` must contain the
opening brace. -/
theorem isPrefixList_long_brace (p pre tail' : List Char)
    (h : isPrefixList p (pre ++ '{' :: tail') = true) (hlt : pre.length < p.length) :
    '{' ∈ p := by
  obtain ⟨u, hu⟩ := (isPrefixList_iff p _).mp h
  have htake : p = (pre ++ '{' :: tail').take p.length := by
    rw [hu, List.take_append_eq_append_take]
    simp
  rw [htake, List.take_append_eq_append_take]
  apply List.mem_append_right
  obtain ⟨k, hk⟩ := Nat.exists_eq_add_of_lt hlt
  have : p.length - pre.length = k + 1 := by omega
  rw [this, List.take_succ_cons]
  exact List.mem_cons_self _ _

/-- The fuel argument of `stripTokF` is irrelevant once it covers the input
length. -/
theorem stripTokF_fuel (pat : List Char) :
    ∀ (n : Nat), ∀ (m : Nat) (s : List Char), s.length ≤ n → s.length ≤ m →
      stripTokF pat n s = stripTokF pat m s := by
  intro n
  induction n with
  | zero =>
    intro m s hn _
    have : s = [] := List.eq_nil_of_length_eq_zero (Nat.le_zero.mp hn)
    subst this
    cases m <;> rfl
  | succ n ih =>
    intro m s hn hm
    cases s with
    | nil => cases m <;> rfl
    | cons c rest =>
      cases m with
      | zero => simp at hm
      | succ m' =>
        simp only [List.length_cons, Nat.succ_le_succ_iff] at hn hm
        simp only [stripTokF]
        by_cases h : pat ≠ [] ∧ isPrefixList pat (c :: rest) = true
        · rw [if_pos h, if_pos h]
          have hplen : 1 ≤ pat.length := List.length_pos.mpr h.1
          have hdlen : ((c :: rest).drop pat.length).length ≤ rest.length := by
            simp only [List.length_drop, List.length_cons]
            omega
          exact ih m' _ (le_trans hdlen hn) (le_trans hdlen hm)
        · rw [if_neg h, if_neg h]
          rw [ih m' rest hn hm]

/-- Step equation of `stripTok` when the pattern matches at the head. -/
theorem stripTok_cons_pos (pat : List Char) (c : Char) (rest : List Char)
    (h : pat ≠ [] ∧ isPrefixList pat (c :: rest) = true) :
    stripTok pat (c :: rest) = stripTok pat ((c :: rest).drop pat.length) := by
  show stripTokF pat (rest.length + 1) (c :: rest) = _
  simp only [stripTokF]
  rw [if_pos h]
  apply stripTokF_fuel
  · have hplen : 1 ≤ pat.length := List.length_pos.mpr h.1
    simp only [List.length_drop, List.length_cons]
    omega
  · exact le_refl _

/-- Step equation of `stripTok` when the pattern does not match at the
head. -/
theorem stripTok_cons_neg (pat : List Char) (c : Char) (rest : List Char)
    (h : ¬ (pat ≠ [] ∧ isPrefixList pat (c :: rest) = true)) :
    stripTok pat (c :: rest) = c :: stripTok pat rest := by
  show stripTokF pat (rest.length + 1) (c :: rest) = _
  simp only [stripTokF]
  rw [if_neg h]
  rfl

/-- Removal never adds characters: the output is a sublist of the input. -/
theorem stripTok_sublist_aux (pat : List Char) :
    ∀ (n : Nat) (s : List Char), s.length ≤ n → (stripTok pat s).Sublist s := by
  intro n
  induction n with
  | zero =>
    intro s hn
    have : s = [] := List.eq_nil_of_length_eq_zero (Nat.le_zero.mp hn)
    subst this
    exact List.Sublist.refl []
  | succ n ih =>
    intro s hn
    cases s with
    | nil => exact List.Sublist.refl []
    | cons c rest =>
      simp only [List.length_cons, Nat.succ_le_succ_iff] at hn
      by_cases h : pat ≠ [] ∧ isPrefixList pat (c :: rest) = true
      · rw [stripTok_cons_pos pat c rest h]
        refine List.Sublist.trans (ih _ ?_) (List.drop_sublist _ _)
        have hplen : 1 ≤ pat.length := List.length_pos.mpr h.1
        simp only [List.length_drop, List.length_cons]
        omega
      · rw [stripTok_cons_neg pat c rest h]
        exact List.Sublist.cons₂ c (ih rest hn)

/-- Removal output is a sublist of the input. -/
theorem stripTok_sublist (pat s : List Char) : (stripTok pat s).Sublist s :=
  stripTok_sublist_aux pat s.length s (le_refl _)

/-- Pattern removal distributes over a boundary followed by an opening brace
the pattern cannot contain. -/
theorem stripTok_append_left (pat : List Char) (hne : pat ≠ []) (hbrace : '{' ∉ pat) :
    ∀ (n : Nat) (pre tail' : List Char), pre.length ≤ n →
      stripTok pat (pre ++ '{' :: tail')
        = stripTok pat pre ++ stripTok pat ('{' :: tail') := by
  intro n
  induction n with
  | zero =>
    intro pre tail' hn
    have : pre = [] := List.eq_nil_of_length_eq_zero (Nat.le_zero.mp hn)
    subst this
    rfl
  | succ n ih =>
    intro pre tail' hn
    cases pre with
    | nil => rfl
    | cons c pre' =>
      simp only [List.length_cons, Nat.succ_le_succ_iff] at hn
      rw [List.cons_append]
      by_cases hp : isPrefixList pat (c :: (pre' ++ '{' :: tail')) = true
      · by_cases hlen : pat.length ≤ (c :: pre').length
        · have hppre : isPrefixList pat (c :: pre') = true := by
            refine isPrefixList_of_le pat (c :: pre') ('{' :: tail') ?_ hlen
            rw [List.cons_append]
            exact hp
          rw [stripTok_cons_pos pat c (pre' ++ '{' :: tail') ⟨hne, hp⟩,
              stripTok_cons_pos pat c pre' ⟨hne, hppre⟩]
          have hdrop : (c :: (pre' ++ '{' :: tail')).drop pat.length
              = (c :: pre').drop pat.length ++ '{' :: tail' := by
            rw [← List.cons_append, List.drop_append_eq_append_drop,
                Nat.sub_eq_zero_of_le hlen, List.drop_zero]
          rw [hdrop]
          apply ih
          have hplen : 1 ≤ pat.length := List.length_pos.mpr hne
          simp only [List.length_drop, List.length_cons]
          omega
        · exfalso
          apply hbrace
          refine isPrefixList_long_brace pat (c :: pre') tail' ?_ ?_
          · rw [List.cons_append]
            exact hp
          · omega
      · have hp' : ¬ (pat ≠ [] ∧ isPrefixList pat (c :: (pre' ++ '{' :: tail')) = true) :=
          fun hcon => hp hcon.2
        have hp'' : ¬ (pat ≠ [] ∧ isPrefixList pat (c :: pre') = true) := by
          rintro ⟨-, hpp⟩
          apply hp
          have := isPrefixList_append_right pat (c :: pre') ('{' :: tail') hpp
          rw [List.cons_append] at this
          exact this
        rw [stripTok_cons_neg pat c _ hp', stripTok_cons_neg pat c pre' hp'']
        rw [ih pre' tail' hn]
        rfl

/-- Pattern removal passes over a segment free of the pattern's leading
backtick. -/
theorem stripTok_append_notick (pat p' : List Char) (hpat : pat = '`' :: p') :
    ∀ (seg post : List Char), (∀ ch ∈ seg, ch ≠ '`') →
      stripTok pat (seg ++ post) = seg ++ stripTok pat post := by
  intro seg
  induction seg with
  | nil => intro post _; rfl
  | cons c seg' ih =>
    intro post hseg
    rw [List.cons_append]
    have hc : c ≠ '`' := hseg c (List.mem_cons_self c seg')
    have hno : ¬ (pat ≠ [] ∧ isPrefixList pat (c :: (seg' ++ post)) = true) := by
      rintro ⟨-, hpre⟩
      rw [hpat] at hpre
      simp only [isPrefixList, Bool.and_eq_true, beq_iff_eq] at hpre
      exact hc hpre.1.symm
    rw [stripTok_cons_neg pat c _ hno]
    rw [ih post (fun ch hch => hseg ch (List.mem_cons_of_mem c hch))]
    rfl

/-- Index of the first occurrence of a character (`String.prototype.indexOf`
restricted to single characters). -/
def indexOfChar : List Char → Char → Option Nat
  | [], _ => none
  | a :: rest, c => if a = c then some 0 else (indexOfChar rest c).map (· + 1)

/-- Index of the last occurrence (`String.prototype.lastIndexOf`). -/
def lastIndexOfChar (s : List Char) (c : Char) : Option Nat :=
  (indexOfChar s.reverse c).map (fun i => s.length - 1 - i)

/-- Embedding of `String.prototype.substring`: the arguments are swapped if needed and
clamped to the string. -/
def jsSubstring (s : List Char) (a b : Nat) : List Char :=
  (s.drop (min a b)).take (max a b - min a b)

/-- The whitespace stripped by `String.prototype.trim` (the common cases:
space, newline, tab, carriage return). -/
def isJsWs (c : Char) : Bool := c = ' ' || c = '\n' || c = '\t' || c = '\r'

/-- Embedding of `String.prototype.trim`. -/
def trimChars (s : List Char) : List Char :=
  ((s.dropWhile isJsWs).reverse.dropWhile isJsWs).reverse

/-- The fixed patterns stripped by `cleanJson`. -/
def jsonTok : List Char := "```json".data

/-- The code-fence pattern. -/
def tickTok : List Char := "```".data

/-- Embedding of `cleanJson` (ErrorBoundary.tsx lines 83-96): strip every
occurrence of the markdown fences, then extract the substring between the
first opening brace and the last closing brace; when either bound is missing,
return the stripped text trimmed. -/
def cleanJson (text : List Char) : List Char :=
  let cleaned := stripTok tickTok (stripTok jsonTok text)
  match indexOfChar cleaned '{', lastIndexOfChar cleaned '}' with
  | some start, some stop => jsSubstring cleaned start (stop + 1)
  | _, _ => trimChars cleaned

/-- First index over a brace-free prefix. -/
theorem indexOfChar_pre (p tail' : List Char) (h : '{' ∉ p) :
    indexOfChar (p ++ '{' :: tail') '{' = some p.length := by
  induction p with
  | nil => simp [indexOfChar]
  | cons a as ih =>
    have ha : a ≠ '{' := fun he => h (he ▸ List.mem_cons_self a as)
    rw [List.cons_append]
    show (if a = '{' then some 0 else (indexOfChar (as ++ '{' :: tail') '{').map (· + 1))
      = some (as.length + 1)
    rw [if_neg ha, ih (fun hm => h (List.mem_cons_of_mem a hm))]
    rfl

/-- First index over a brace-free closing segment, for the last-index
computation. -/
theorem indexOfChar_close (q mid' : List Char) (h : '}' ∉ q) :
    indexOfChar (q ++ '}' :: mid') '}' = some q.length := by
  induction q with
  | nil => simp [indexOfChar]
  | cons a as ih =>
    have ha : a ≠ '}' := fun he => h (he ▸ List.mem_cons_self a as)
    rw [List.cons_append]
    show (if a = '}' then some 0 else (indexOfChar (as ++ '}' :: mid') '}').map (· + 1))
      = some (as.length + 1)
    rw [if_neg ha, ih (fun hm => h (List.mem_cons_of_mem a hm))]
    rfl

/-- One stripping pass distributes around a brace-delimited, backtick-free
object: no pattern occurrence can touch the object (patterns start with a
backtick and cannot contain the opening brace). -/
theorem stripTok_decompose (pat p' : List Char) (hpat : pat = '`' :: p') (hbrace : '{' ∉ pat)
    (pre mid post : List Char) (hmid : ∀ ch ∈ mid, ch ≠ '`') :
    stripTok pat (pre ++ ('{' :: (mid ++ ['}'])) ++ post)
      = stripTok pat pre ++ ('{' :: (mid ++ ['}'])) ++ stripTok pat post := by
  have hne : pat ≠ [] := by rw [hpat]; exact List.cons_ne_nil _ _
  have hobj : ∀ ch ∈ ('{' :: (mid ++ ['}'])), ch ≠ '`' := by
    intro ch hch
    rcases List.mem_cons.mp hch with rfl | hch
    · decide
    · rcases List.mem_append.mp hch with hch | hch
      · exact hmid ch hch
      · rw [List.mem_singleton.mp hch]
        decide
  calc stripTok pat (pre ++ ('{' :: (mid ++ ['}'])) ++ post)
      = stripTok pat (pre ++ ('{' :: ((mid ++ ['}']) ++ post))) := by
        rw [List.append_assoc, List.cons_append]
    _ = stripTok pat pre ++ stripTok pat ('{' :: ((mid ++ ['}']) ++ post)) :=
        stripTok_append_left pat hne hbrace pre.length pre _ (le_refl _)
    _ = stripTok pat pre ++ (('{' :: (mid ++ ['}'])) ++ stripTok pat post) := by
        rw [show ('{' :: ((mid ++ ['}']) ++ post)) = ('{' :: (mid ++ ['}'])) ++ post from
          by rw [List.cons_append]]
        rw [stripTok_append_notick pat p' hpat ('{' :: (mid ++ ['}'])) post hobj]
    _ = stripTok pat pre ++ ('{' :: (mid ++ ['}'])) ++ stripTok pat post := by
        rw [List.append_assoc]

/-- Both stripping passes of `cleanJson`. -/
def stripFences (text : List Char) : List Char := stripTok tickTok (stripTok jsonTok text)

/-- Both passes distribute around the brace-delimited, backtick-free
object. -/
theorem stripFences_decompose (pre mid post : List Char)
    (hmid : ∀ ch ∈ mid, ch ≠ '`') :
    stripFences (pre ++ ('{' :: (mid ++ ['}'])) ++ post)
      = stripFences pre ++ ('{' :: (mid ++ ['}'])) ++ stripFences post := by
  unfold stripFences
  rw [stripTok_decompose jsonTok ("``json".data) (by decide) (by decide) pre mid post hmid]
  rw [stripTok_decompose tickTok ("``".data) (by decide) (by decide) _ mid _ hmid]

/-- Stripping preserves character absence. -/
theorem stripFences_not_mem (text : List Char) (ch : Char) (h : ch ∉ text) :
    ch ∉ stripFences text := by
  intro hmem
  exact h ((stripTok_sublist jsonTok text).mem ((stripTok_sublist tickTok _).mem hmem))

/-- The function `cleanJson` extracts exactly the brace-delimited object out of any
wrapping whose leading part holds no opening brace and trailing part no
closing brace, provided the object itself holds no backtick. -/
theorem cleanJson_extracts (pre mid post : List Char)
    (hpre : '{' ∉ pre) (hpost : '}' ∉ post) (hmid : ∀ ch ∈ mid, ch ≠ '`') :
    cleanJson (pre ++ ('{' :: (mid ++ ['}'])) ++ post) = '{' :: (mid ++ ['}']) := by
  have hdec := stripFences_decompose pre mid post hmid
  have hp2 : '{' ∉ stripFences pre := stripFences_not_mem pre '{' hpre
  have hq2 : '}' ∉ stripFences post := stripFences_not_mem post '}' hpost
  have hcleaned : stripTok tickTok (stripTok jsonTok (pre ++ ('{' :: (mid ++ ['}'])) ++ post))
      = stripFences pre ++ ('{' :: (mid ++ ['}'])) ++ stripFences post := hdec
  have hidx : indexOfChar
      (stripFences pre ++ ('{' :: (mid ++ ['}'])) ++ stripFences post) '{'
      = some (stripFences pre).length := by
    rw [List.append_assoc, List.cons_append]
    exact indexOfChar_pre (stripFences pre) _ hp2
  have hrev : (stripFences pre ++ ('{' :: (mid ++ ['}'])) ++ stripFences post).reverse
      = (stripFences post).reverse ++ ('}' :: (mid.reverse ++ ('{' :: (stripFences pre).reverse))) := by
    simp [List.reverse_append, List.reverse_cons, List.append_assoc]
  have hlen : (stripFences pre ++ ('{' :: (mid ++ ['}'])) ++ stripFences post).length
      = (stripFences pre).length + (mid.length + 2) + (stripFences post).length := by
    simp
    omega
  have hlast : lastIndexOfChar
      (stripFences pre ++ ('{' :: (mid ++ ['}'])) ++ stripFences post) '}'
      = some ((stripFences pre).length + mid.length + 1) := by
    rw [lastIndexOfChar, hrev]
    have hq2r : '}' ∉ (stripFences post).reverse := by
      intro hmem
      exact hq2 (List.mem_reverse.mp hmem)
    rw [indexOfChar_close _ _ hq2r]
    simp only [Option.map_some']
    congr 1
    rw [hlen]
    simp only [List.length_reverse]
    omega
  simp only [cleanJson]
  rw [hcleaned, hidx, hlast]
  show jsSubstring (stripFences pre ++ ('{' :: (mid ++ ['}'])) ++ stripFences post)
      (stripFences pre).length ((stripFences pre).length + mid.length + 1 + 1)
    = '{' :: (mid ++ ['}'])
  rw [jsSubstring]
  have hmin : min (stripFences pre).length ((stripFences pre).length + mid.length + 1 + 1)
      = (stripFences pre).length := by omega
  have hmax : max (stripFences pre).length ((stripFences pre).length + mid.length + 1 + 1)
      = (stripFences pre).length + mid.length + 2 := by omega
  rw [hmin, hmax, List.append_assoc, List.drop_left]
  have hsub : (stripFences pre).length + mid.length + 2 - (stripFences pre).length
      = mid.length + 2 := by omega
  rw [hsub]
  apply List.take_left'
  simp

/-!
A model of the `JSON.parse` builtin (ECMA-404 grammar) used by
`interpretVoiceCommand`.  Numbers are kept as an exact mantissa/decimal
exponent pair (the parsed text `m * 10 ^ e`), which models the numeric value
without rounding.
-/

/-- JSON values as produced by `JSON.parse`. -/
inductive Json where
  | null
  | bool (b : Bool)
  | num (mantissa : Int) (exp10 : Int)
  | str (s : List Char)
  | arr (elems : List Json)
  | obj (fields : List (List Char × Json))

/-- Decimal digit test. -/
def isJsonDigit (c : Char) : Bool := '0' ≤ c && c ≤ '9'

/-- Digits to a natural number. -/
def digitsToNat (ds : List Char) : ℕ :=
  ds.foldl (fun a c => a * 10 + (c.toNat - '0'.toNat)) 0

/-- Hexadecimal digit value. -/
def hexVal (c : Char) : Option Nat :=
  if '0' ≤ c ∧ c ≤ '9' then some (c.toNat - '0'.toNat)
  else if 'a' ≤ c ∧ c ≤ 'f' then some (c.toNat - 'a'.toNat + 10)
  else if 'A' ≤ c ∧ c ≤ 'F' then some (c.toNat - 'A'.toNat + 10)
  else none

/-- JSON string body after the opening quote; yields the decoded content and
the remainder after the closing quote.  Raw control characters are
rejected. -/
def parseStringBody : List Char → Option (List Char × List Char)
  | [] => none
  | '"' :: rest => some ([], rest)
  | '\\' :: e :: rest =>
    match e with
    | '"' => (parseStringBody rest).map (fun p => ('"' :: p.1, p.2))
    | '\\' => (parseStringBody rest).map (fun p => ('\\' :: p.1, p.2))
    | '/' => (parseStringBody rest).map (fun p => ('/' :: p.1, p.2))
    | 'b' => (parseStringBody rest).map (fun p => ('\x08' :: p.1, p.2))
    | 'f' => (parseStringBody rest).map (fun p => ('\x0c' :: p.1, p.2))
    | 'n' => (parseStringBody rest).map (fun p => ('\n' :: p.1, p.2))
    | 'r' => (parseStringBody rest).map (fun p => ('\r' :: p.1, p.2))
    | 't' => (parseStringBody rest).map (fun p => ('\t' :: p.1, p.2))
    | 'u' =>
      match rest with
      | h1 :: h2 :: h3 :: h4 :: rest2 =>
        match hexVal h1, hexVal h2, hexVal h3, hexVal h4 with
        | some a, some b, some c, some d =>
          let code := ((a * 16 + b) * 16 + c) * 16 + d
          (parseStringBody rest2).map (fun p => (Char.ofNat code :: p.1, p.2))
        | _, _, _, _ => none
      | _ => none
    | _ => none
  | c :: rest =>
    if c.toNat < 32 then none
    else (parseStringBody rest).map (fun p => (c :: p.1, p.2))

/-- Take leading decimal digits. -/
def takeDigits (s : List Char) : List Char × List Char :=
  (s.takeWhile isJsonDigit, s.dropWhile isJsonDigit)

/-- Exponent suffix of a JSON number, applied to a mantissa/exponent pair. -/
def parseExpSuffix (m : Int) (e : Int) (r : List Char) : Option ((Int × Int) × List Char) :=
  let (pos, r1) := match r with
    | '+' :: rr => (true, rr)
    | '-' :: rr => (false, rr)
    | _ => (true, r)
  let (es, r2) := takeDigits r1
  if es = [] then none
  else
    let k : Int := (digitsToNat es : Int)
    some ((m, e + (if pos then k else -k)), r2)

/-- A JSON number: `-? (0 | [1-9][0-9]*) (. [0-9]+)? ([eE][+-]?[0-9]+)?`,
returned as mantissa and decimal exponent. -/
def parseNumber (s : List Char) : Option ((Int × Int) × List Char) :=
  let (neg, s1) := match s with
    | '-' :: r => (true, r)
    | _ => (false, s)
  let (ds, s2) := takeDigits s1
  if ds = [] then none
  else if 1 < ds.length ∧ ds.head? = some '0' then none
  else
    let step1 : Option ((Int × Int) × List Char) := match s2 with
      | '.' :: r =>
        let (fs, s3) := takeDigits r
        if fs = [] then none
        else some (((digitsToNat ds * 10 ^ fs.length + digitsToNat fs : ℕ) ,
                    -(fs.length : Int)), s3)
      | _ => some (((digitsToNat ds : ℕ), 0), s2)
    match step1 with
    | none => none
    | some ((m, e), s3) =>
      let step2 : Option ((Int × Int) × List Char) := match s3 with
        | 'e' :: r => parseExpSuffix m e r
        | 'E' :: r => parseExpSuffix m e r
        | _ => some ((m, e), s3)
      match step2 with
      | none => none
      | some ((m2, e2), s4) => some ((if neg then -m2 else m2, e2), s4)

/-- The literal tokens. -/
def trueTok : List Char := "true".data

/-- The false literal. -/
def falseTok : List Char := "false".data

/-- The null literal. -/
def nullTok : List Char := "null".data

mutual

/-- Fuel-indexed JSON value parser (whitespace-tolerant). -/
def parseVal : Nat → List Char → Option (Json × List Char)
  | 0, _ => none
  | fuel + 1, s0 =>
    let s := s0.dropWhile isJsWs
    match s with
    | [] => none
    | '{' :: rest => parseObjRest fuel rest
    | '[' :: rest => parseArrRest fuel rest
    | '"' :: rest => (parseStringBody rest).map (fun p => (Json.str p.1, p.2))
    | _ =>
      if isPrefixList trueTok s then some (Json.bool true, s.drop trueTok.length)
      else if isPrefixList falseTok s then some (Json.bool false, s.drop falseTok.length)
      else if isPrefixList nullTok s then some (Json.null, s.drop nullTok.length)
      else (parseNumber s).map (fun p => (Json.num p.1.1 p.1.2, p.2))

/-- After an opening bracket: empty array or the element loop. -/
def parseArrRest : Nat → List Char → Option (Json × List Char)
  | 0, _ => none
  | fuel + 1, s0 =>
    let s := s0.dropWhile isJsWs
    match s with
    | ']' :: rest => some (Json.arr [], rest)
    | _ => parseArrElems fuel s []

/-- Array element loop. -/
def parseArrElems : Nat → List Char → List Json → Option (Json × List Char)
  | 0, _, _ => none
  | fuel + 1, s, acc =>
    match parseVal fuel s with
    | none => none
    | some (v, r1) =>
      match r1.dropWhile isJsWs with
      | ',' :: r3 => parseArrElems fuel r3 (acc ++ [v])
      | ']' :: r3 => some (Json.arr (acc ++ [v]), r3)
      | _ => none

/-- After an opening brace: empty object or the field loop. -/
def parseObjRest : Nat → List Char → Option (Json × List Char)
  | 0, _ => none
  | fuel + 1, s0 =>
    let s := s0.dropWhile isJsWs
    match s with
    | '}' :: rest => some (Json.obj [], rest)
    | _ => parseObjFields fuel s []

/-- Object field loop. -/
def parseObjFields : Nat → List Char → List (List Char × Json) → Option (Json × List Char)
  | 0, _, _ => none
  | fuel + 1, s0, acc =>
    let s := s0.dropWhile isJsWs
    match s with
    | '"' :: rest =>
      match parseStringBody rest with
      | none => none
      | some (key, r1) =>
        match r1.dropWhile isJsWs with
        | ':' :: r3 =>
          match parseVal fuel r3 with
          | none => none
          | some (v, r4) =>
            match r4.dropWhile isJsWs with
            | ',' :: r6 => parseObjFields fuel r6 (acc ++ [(key, v)])
            | '}' :: r6 => some (Json.obj (acc ++ [(key, v)]), r6)
            | _ => none
        | _ => none
    | _ => none

end

/-- The `JSON.parse` model: parse one value and require only whitespace after
it.  The fuel covers any input (each three successive recursive calls consume
at least one character). -/
def parseJson (s : List Char) : Option Json :=
  match parseVal (3 * s.length + 3) s with
  | some (v, rest) => if rest.dropWhile isJsWs = [] then some v else none
  | none => none

/-- The error taxonomy of the parse block: `MalformedResponseKind` is the
"(Invalid Response)" message. -/
inductive VoiceError where
  | invalidResponse
deriving DecidableEq, Repr

/-- The response-parse step of `interpretVoiceCommand` (ErrorBoundary.tsx
lines 380-387): the model text is cleaned by `cleanJson` and given to
`JSON.parse`; a parse failure raises the malformed-response error, and a
parse success hands the parsed value to the sanitize/remap section and the
call returns it. -/
def parseResponseText (text : List Char) : Except VoiceError Json :=
  match parseJson (cleanJson text) with
  | some v => .ok v
  | none => .error .invalidResponse

/-- Counterexample to claim C8: the response text `42` contains no opening
brace at all, yet validation does not fail — the fence-stripped trimmed text
parses as the JSON number 42 and the call returns it as the command value
instead of reporting a malformed-response error. -/
theorem responseValidation_counterexample :
    indexOfChar (stripFences ("42".data)) '{' = none ∧
    parseResponseText ("42".data) = .ok (.num 42 0) :=
  ⟨rfl, rfl⟩

/-- Claim C8 (amended): validation extracts the substring between the first
opening and last closing brace of the fence-stripped text before parsing, so
a command object wrapped in prose or code fencing (with no braces in the
wrapping and no backtick in the object) validates successfully; but when no
such bounds exist, the fence-stripped text is trimmed and parsed as-is, so
validation fails with the malformed-response error exactly when that text is
not valid JSON — a braceless response that is itself valid JSON is accepted
and returned. -/
theorem responseValidation_amended :
    (∀ pre mid post : List Char, ∀ v : Json,
      '{' ∉ pre → '}' ∉ post → (∀ ch ∈ mid, ch ≠ '`') →
      cleanJson (pre ++ ('{' :: (mid ++ ['}'])) ++ post) = '{' :: (mid ++ ['}']) ∧
      (parseJson ('{' :: (mid ++ ['}'])) = some v →
        parseResponseText (pre ++ ('{' :: (mid ++ ['}'])) ++ post) = .ok v)) ∧
    (∀ text : List Char,
      indexOfChar (stripFences text) '{' = none ∨
        lastIndexOfChar (stripFences text) '}' = none →
      parseResponseText text
        = match parseJson (trimChars (stripFences text)) with
          | some v => Except.ok v
          | none => Except.error VoiceError.invalidResponse) := by
  constructor
  · intro pre mid post v hpre hpost hmid
    have hext := cleanJson_extracts pre mid post hpre hpost hmid
    refine ⟨hext, ?_⟩
    intro hp
    rw [parseResponseText, hext, hp]
  · intro text hnone
    have hclean : cleanJson text = trimChars (stripFences text) := by
      show (match indexOfChar (stripFences text) '{', lastIndexOfChar (stripFences text) '}' with
        | some start, some stop => jsSubstring (stripFences text) start (stop + 1)
        | _, _ => trimChars (stripFences text)) = trimChars (stripFences text)
      rcases hnone with h | h
      · rw [h]
      · rw [h]
        all_goals cases indexOfChar (stripFences text) '{' <;> rfl
    rw [parseResponseText, hclean]

/-- Prose-and-fence wrapping for the C8 witness. -/
def c8Pre : List Char := "Sure thing: ```json\n".data

/-- The trailing wrapping for the C8 witness. -/
def c8Post : List Char := "\n``` done".data

/-- Witness for the amended C8: the empty object wrapped in prose and code
fencing validates to the empty-object command, and a braceless text is parsed
as-is. -/
theorem responseValidation_amended_witness :
    cleanJson (c8Pre ++ ('{' :: ([] ++ ['}'])) ++ c8Post) = '{' :: ([] ++ ['}']) ∧
    parseResponseText (c8Pre ++ ('{' :: ([] ++ ['}'])) ++ c8Post) = .ok (.obj []) ∧
    parseResponseText ("true".data)
      = match parseJson (trimChars (stripFences ("true".data))) with
        | some v => Except.ok v
        | none => Except.error VoiceError.invalidResponse := by
  have h1 := (responseValidation_amended.1) c8Pre [] c8Post (Json.obj [])
    (by decide) (by decide) (fun ch hch => absurd hch (List.not_mem_nil ch))
  exact ⟨h1.1, h1.2 rfl, (responseValidation_amended.2) ("true".data) (Or.inl rfl)⟩
